import Mathlib

/-!
Shallow embedding of the layout-analysis engine of `layout.py` (geometric
grouping of glyphs into words, lines, boxes and hierarchical groups), together
with theorems settling the frozen claims about it.

Python floats are idealized as exact rationals (`ℚ`); Python exceptions are
modelled with an explicit error type.  The spatial index (`utils.Plane`) and
the sentinel constant `utils.INF` come from a module that is not part of the
sources; they are modelled from the spec and marked as such.
-/

namespace Layout

/-! ## Geometric primitive: LTComponent bounding boxes (layout.py 122-196) -/

/-- A bounding box `(x0, y0, x1, y1)`, as stored by `LTComponent.set_bbox`. -/
structure BBox where
  x0 : ℚ
  y0 : ℚ
  x1 : ℚ
  y1 : ℚ
deriving Repr, DecidableEq

/-- Source: `self.width = x1 - x0` (`LTComponent.set_bbox`). -/
def BBox.width (b : BBox) : ℚ := b.x1 - b.x0

/-- Source: `self.height = y1 - y0` (`LTComponent.set_bbox`). -/
def BBox.height (b : BBox) : ℚ := b.y1 - b.y0

/-- Source: `LTComponent.is_empty`. -/
def BBox.is_empty (b : BBox) : Bool := decide (b.width ≤ 0) || decide (b.height ≤ 0)

/-- Source: `LTComponent.is_hoverlap`: `obj.x0 <= self.x1 and self.x0 <= obj.x1`. -/
def BBox.is_hoverlap (s o : BBox) : Bool := decide (o.x0 ≤ s.x1) && decide (s.x0 ≤ o.x1)

/-- Source: `LTComponent.hdistance`. -/
def BBox.hdistance (s o : BBox) : ℚ :=
  if s.is_hoverlap o then 0 else min |s.x0 - o.x1| |s.x1 - o.x0|

/-- Source: `LTComponent.hoverlap`. -/
def BBox.hoverlap (s o : BBox) : ℚ :=
  if s.is_hoverlap o then min |s.x0 - o.x1| |s.x1 - o.x0| else 0

/-- Source: `LTComponent.is_voverlap`: `obj.y0 <= self.y1 and self.y0 <= obj.y1`. -/
def BBox.is_voverlap (s o : BBox) : Bool := decide (o.y0 ≤ s.y1) && decide (s.y0 ≤ o.y1)

/-- Source: `LTComponent.vdistance`. -/
def BBox.vdistance (s o : BBox) : ℚ :=
  if s.is_voverlap o then 0 else min |s.y0 - o.y1| |s.y1 - o.y0|

/-- Source: `LTComponent.voverlap`. -/
def BBox.voverlap (s o : BBox) : ℚ :=
  if s.is_voverlap o then min |s.y0 - o.y1| |s.y1 - o.y0| else 0

/-! ## Python errors -/

/-- The Python exceptions raised by the embedded code. -/
inductive PyError where
  | valueError
  | typeError
  | attributeError
deriving Repr, DecidableEq

/-! ## Disabled ordering operators (layout.py 134-145)

`LTComponent.__lt__`, `__le__`, `__gt__`, `__ge__` each consist of a single
`raise ValueError`; a Python ordering comparison between two components
dispatches to them and therefore always raises. -/

/-- Source: `LTComponent.__lt__(self, _)`: `raise ValueError`. -/
def LTComponent.lt (_self _other : BBox) : Except PyError Bool := .error .valueError

/-- Source: `LTComponent.__le__(self, _)`: `raise ValueError`. -/
def LTComponent.le (_self _other : BBox) : Except PyError Bool := .error .valueError

/-- Source: `LTComponent.__gt__(self, _)`: `raise ValueError`. -/
def LTComponent.gt (_self _other : BBox) : Except PyError Bool := .error .valueError

/-- Source: `LTComponent.__ge__(self, _)`: `raise ValueError`. -/
def LTComponent.ge (_self _other : BBox) : Except PyError Bool := .error .valueError

/-! ## LAParams construction and validation (layout.py 37-94) -/

/-- A Python value, as far as `LAParams._validate` can observe it.
`isinstance(x, int)` is true for `bool` values as well (Python's `bool` is a
subclass of `int`, with `True == 1` and `False == 0`). -/
inductive PyVal where
  | pynone
  | pybool (b : Bool)
  | pyint (n : ℤ)
  | pyfloat (q : ℚ)
  | pystr (s : String)
deriving Repr, DecidableEq

/-- Source: `isinstance(v, int)` (true for `bool`, a subclass of `int`). -/
def PyVal.isinstanceInt : PyVal → Bool
  | .pyint _ => true
  | .pybool _ => true
  | _ => false

/-- Source: `isinstance(v, float)`. -/
def PyVal.isinstanceFloat : PyVal → Bool
  | .pyfloat _ => true
  | _ => false

/-- The numeric value of a `PyVal`, when it has one. -/
def PyVal.numval : PyVal → Option ℚ
  | .pyint n => some (n : ℚ)
  | .pyfloat q => some q
  | .pybool b => some (if b then 1 else 0)
  | _ => none

/-- Source: `LAParams._validate` (layout.py 86-94), restricted to its only subject,
`boxes_flow`.  `None` passes; a non-number raises `TypeError`; a number
outside `[-1, 1]` raises `ValueError`.  (`v.numval.getD 0` is only evaluated
under the `isinstance` guard, where `numval` is always `some`.) -/
def LAParams.validateBoxesFlow (bf : PyVal) : Except PyError Unit :=
  match bf with
  | .pynone => .ok ()
  | v =>
    if !(v.isinstanceInt || v.isinstanceFloat) then .error .typeError
    else if !(decide (-1 ≤ v.numval.getD 0) && decide (v.numval.getD 0 ≤ 1)) then
      .error .valueError
    else .ok ()

/-- The fields of a successfully constructed `LAParams` object. -/
structure LAParamsRec where
  line_overlap : ℚ
  char_margin : ℚ
  line_margin : ℚ
  word_margin : ℚ
  boxes_flow : PyVal
  char_margin_for_word : ℚ
  detect_vertical : Bool
  all_texts : Bool
deriving Repr, DecidableEq

/-- Source: `LAParams.__init__` (layout.py 65-84): stores the parameters and calls
`self._validate()` before returning, so an invalid `boxes_flow` fails at
construction time. -/
def LAParams.init (lo cm lm wm : ℚ) (bf : PyVal) (cmw : ℚ) (dv at_ : Bool) :
    Except PyError LAParamsRec :=
  match LAParams.validateBoxesFlow bf with
  | .error e => .error e
  | .ok _ => .ok ⟨lo, cm, lm, wm, bf, cmw, dv, at_⟩

/-! ## Containers (layout.py 361-480)

`utils.INF` is not among the sources; modelled from the spec: the initial box
of an expandable container is "the degenerate empty/infinite box"
`(+INF, +INF, -INF, -INF)`, with `INF` a large sentinel constant. -/

/-- Modelled from the spec: the `utils.INF` sentinel (`2^31 - 1`) used for the
degenerate empty/infinite box of a fresh expandable container. -/
def INF : ℚ := 2147483647

/-- The degenerate box `(+INF, +INF, -INF, -INF)` of `LTExpandableContainer.__init__`. -/
def sentinelBBox : BBox := ⟨INF, INF, -INF, -INF⟩

/-- The bbox update of `LTExpandableContainer.add`:
`(min(x0, obj.x0), min(y0, obj.y0), max(x1, obj.x1), max(y1, obj.y1))`. -/
def expandBBox (b obj : BBox) : BBox :=
  ⟨min b.x0 obj.x0, min b.y0 obj.y0, max b.x1 obj.x1, max b.y1 obj.y1⟩

/-- A plain `LTContainer` (layout.py 361-387): a fixed bbox given at
construction and a list of children.  Only the geometric content of the
children matters here, so children are carried as their boxes. -/
structure LTContainer where
  bbox : BBox
  objs : List BBox
deriving Repr, DecidableEq

/-- Source: `LTContainer.add` (layout.py 375-377): appends the child and does NOT
touch the container's bbox. -/
def LTContainer.add (c : LTContainer) (o : BBox) : LTContainer :=
  { c with objs := c.objs ++ [o] }

/-- An `LTExpandableContainer` (layout.py 471-480). -/
structure LTExpandableContainer where
  bbox : BBox
  objs : List BBox
deriving Repr, DecidableEq

/-- Source: `LTExpandableContainer.__init__`: bbox `(+INF, +INF, -INF, -INF)`, no children. -/
def LTExpandableContainer.empty : LTExpandableContainer := ⟨sentinelBBox, []⟩

/-- Source: `LTExpandableContainer.add` (layout.py 476-480): append the child, then
`set_bbox` to the componentwise min/max with the child's box. -/
def LTExpandableContainer.add (c : LTExpandableContainer) (o : BBox) : LTExpandableContainer :=
  ⟨expandBBox c.bbox o, c.objs ++ [o]⟩

/-- A sequence of `add` calls. -/
def LTExpandableContainer.addAll (c : LTExpandableContainer) (os : List BBox) :
    LTExpandableContainer :=
  os.foldl LTExpandableContainer.add c

/-- Coordinates small enough not to exceed the `INF` sentinel (always the case
for coordinates on a real page). -/
def inSentinelRange (b : BBox) : Prop :=
  b.x0 ≤ INF ∧ b.y0 ≤ INF ∧ -INF ≤ b.x1 ∧ -INF ≤ b.y1

instance : DecidablePred inSentinelRange := fun b => by
  unfold inSentinelRange; infer_instance

/-! ### Helper lemmas for containers -/

lemma addAll_objs (c : LTExpandableContainer) (os : List BBox) :
    (c.addAll os).objs = c.objs ++ os := by
  induction os generalizing c with
  | nil => simp [LTExpandableContainer.addAll]
  | cons o os ih =>
    simp [LTExpandableContainer.addAll] at ih ⊢
    rw [ih]
    simp [LTExpandableContainer.add]

lemma addAll_bbox (c : LTExpandableContainer) (os : List BBox) :
    (c.addAll os).bbox =
      ⟨(os.map BBox.x0).foldl min c.bbox.x0, (os.map BBox.y0).foldl min c.bbox.y0,
       (os.map BBox.x1).foldl max c.bbox.x1, (os.map BBox.y1).foldl max c.bbox.y1⟩ := by
  induction os generalizing c with
  | nil => simp [LTExpandableContainer.addAll]
  | cons o os ih =>
    simp only [LTExpandableContainer.addAll, List.foldl_cons, List.map_cons] at ih ⊢
    rw [ih]
    rfl

/-! ## Claim theorems: C8, C9, C3 -/

/-- Claim C8: invoking any ordering comparison (`<`, `<=`, `>`, `>=`) on a pair
of geometric components always raises `ValueError`; none of them ever returns
a boolean (layout.py 134-145). -/
theorem C8_ordering_comparisons_raise (a b : BBox) :
    LTComponent.lt a b = .error .valueError ∧
    LTComponent.le a b = .error .valueError ∧
    LTComponent.gt a b = .error .valueError ∧
    LTComponent.ge a b = .error .valueError ∧
    (∀ r : Bool, LTComponent.lt a b ≠ .ok r ∧ LTComponent.le a b ≠ .ok r ∧
      LTComponent.gt a b ≠ .ok r ∧ LTComponent.ge a b ≠ .ok r) := by
  refine ⟨rfl, rfl, rfl, rfl, fun r => ⟨?_, ?_, ?_, ?_⟩⟩ <;> simp [LTComponent.lt,
    LTComponent.le, LTComponent.gt, LTComponent.ge]

/-- Claim C9: constructing `LAParams` with a `boxes_flow` that is neither
`None` nor a number raises `TypeError`; a numeric `boxes_flow` outside
`[-1, 1]` raises `ValueError`; `None` or a number in `[-1, 1]` succeeds; and
any validation failure surfaces at construction time (layout.py 65-94). -/
theorem C9_boxes_flow_validation :
    (LAParams.validateBoxesFlow .pynone = .ok ()) ∧
    (∀ v : PyVal, v ≠ .pynone → v.numval = none →
      LAParams.validateBoxesFlow v = .error .typeError) ∧
    (∀ (v : PyVal) (q : ℚ), v.numval = some q → (q < -1 ∨ 1 < q) →
      LAParams.validateBoxesFlow v = .error .valueError) ∧
    (∀ (v : PyVal) (q : ℚ), v.numval = some q → -1 ≤ q → q ≤ 1 →
      LAParams.validateBoxesFlow v = .ok ()) ∧
    (∀ (lo cm lm wm cmw : ℚ) (bf : PyVal) (dv at_ : Bool) (e : PyError),
      LAParams.validateBoxesFlow bf = .error e →
      LAParams.init lo cm lm wm bf cmw dv at_ = .error e) := by
  refine ⟨rfl, ?_, ?_, ?_, ?_⟩
  · intro v hne hnum
    cases v with
    | pynone => exact absurd rfl hne
    | pybool b => simp [PyVal.numval] at hnum
    | pyint n => simp [PyVal.numval] at hnum
    | pyfloat q => simp [PyVal.numval] at hnum
    | pystr s => rfl
  · intro v q hnum hout
    have hout' : ¬(-1 ≤ q) ∨ ¬(q ≤ 1) := by
      rcases hout with h | h
      · exact Or.inl (not_le.mpr h)
      · exact Or.inr (not_le.mpr h)
    cases v with
    | pynone => simp [PyVal.numval] at hnum
    | pystr s => simp [PyVal.numval] at hnum
    | pybool b =>
      simp only [PyVal.numval, Option.some_inj] at hnum
      subst hnum
      rcases hout with h | h <;> cases b <;> norm_num at h
    | pyint n =>
      simp only [PyVal.numval, Option.some_inj] at hnum
      subst hnum
      rcases hout' with h | h <;>
        simp [LAParams.validateBoxesFlow, PyVal.isinstanceInt, PyVal.isinstanceFloat,
          PyVal.numval, h]
    | pyfloat q' =>
      simp only [PyVal.numval, Option.some_inj] at hnum
      subst hnum
      rcases hout' with h | h <;>
        simp [LAParams.validateBoxesFlow, PyVal.isinstanceInt, PyVal.isinstanceFloat,
          PyVal.numval, h]
  · intro v q hnum hlo hhi
    cases v with
    | pynone => rfl
    | pystr s => simp [PyVal.numval] at hnum
    | pybool b =>
      cases b <;>
        simp [LAParams.validateBoxesFlow, PyVal.isinstanceInt, PyVal.isinstanceFloat,
          PyVal.numval]
    | pyint n =>
      simp only [PyVal.numval, Option.some_inj] at hnum
      subst hnum
      simp [LAParams.validateBoxesFlow, PyVal.isinstanceInt, PyVal.isinstanceFloat,
        PyVal.numval, hlo, hhi]
    | pyfloat q' =>
      simp only [PyVal.numval, Option.some_inj] at hnum
      subst hnum
      simp [LAParams.validateBoxesFlow, PyVal.isinstanceInt, PyVal.isinstanceFloat,
        PyVal.numval, hlo, hhi]
  · intro lo cm lm wm cmw bf dv at_ e he
    simp [LAParams.init, he]

/-- Claim C9 witness: concrete invocations. -/
theorem C9_boxes_flow_validation_witness :
    LAParams.validateBoxesFlow (.pystr "x") = .error .typeError ∧
    LAParams.validateBoxesFlow (.pyfloat 2) = .error .valueError ∧
    LAParams.validateBoxesFlow .pynone = .ok () ∧
    LAParams.validateBoxesFlow (.pyfloat (1/2)) = .ok () ∧
    LAParams.init (1/2) 2 (1/2) (1/10) (.pystr "x") (1/20) false false = .error .typeError :=
  ⟨C9_boxes_flow_validation.2.1 (.pystr "x") (by decide) rfl,
   C9_boxes_flow_validation.2.2.1 (.pyfloat 2) 2 rfl (by norm_num),
   C9_boxes_flow_validation.1,
   C9_boxes_flow_validation.2.2.2.1 (.pyfloat (1/2)) (1/2) rfl (by norm_num) (by norm_num),
   C9_boxes_flow_validation.2.2.2.2 (1/2) 2 (1/2) (1/10) (1/20) (.pystr "x") false false
     .typeError (C9_boxes_flow_validation.2.1 (.pystr "x") (by decide) rfl)⟩

/-- Claim C3 counterexample: a plain `LTContainer` (the `add` of layout.py
375-377, used by pages and figures) appends a child without updating its
bounding box, so "for every container the bbox equals the componentwise
min/max of its children's boxes" fails: a container with bbox
`(0,0,10,10)` that receives the single child `(1,1,2,2)` keeps bbox
`(0,0,10,10)`, not the union `(1,1,2,2)` of its children. -/
theorem C3_counterexample :
    (LTContainer.add ⟨⟨0,0,10,10⟩, []⟩ ⟨1,1,2,2⟩).objs = [⟨1,1,2,2⟩] ∧
    (LTContainer.add ⟨⟨0,0,10,10⟩, []⟩ ⟨1,1,2,2⟩).bbox = ⟨0,0,10,10⟩ ∧
    (LTContainer.add ⟨⟨0,0,10,10⟩, []⟩ ⟨1,1,2,2⟩).bbox ≠ ⟨1,1,2,2⟩ := by
  refine ⟨rfl, rfl, ?_⟩
  decide

/-- Claim C3 (amended to expandable containers): for every
`LTExpandableContainer` (words, lines, boxes, groups), after any sequence of
child additions its bounding box equals the componentwise min/max of its
current children's boxes (for coordinates within the sentinel range), and it
is the degenerate sentinel box before any child is added; the update is
incremental, performed by each `add` (layout.py 471-480). -/
theorem C3_expandable_bbox_union (o : BBox) (os : List BBox)
    (hb : ∀ b ∈ o :: os, inSentinelRange b) :
    (LTExpandableContainer.empty.addAll (o :: os)).objs = o :: os ∧
    (LTExpandableContainer.empty.addAll (o :: os)).bbox =
      ⟨(os.map BBox.x0).foldl min o.x0, (os.map BBox.y0).foldl min o.y0,
       (os.map BBox.x1).foldl max o.x1, (os.map BBox.y1).foldl max o.y1⟩ ∧
    LTExpandableContainer.empty.bbox = sentinelBBox := by
  obtain ⟨h0, h1, h2, h3⟩ := hb o (by simp)
  refine ⟨by simpa using addAll_objs LTExpandableContainer.empty (o :: os), ?_, rfl⟩
  have step : LTExpandableContainer.empty.addAll (o :: os) =
      (LTExpandableContainer.empty.add o).addAll os := rfl
  rw [step, addAll_bbox]
  have hadd : (LTExpandableContainer.empty.add o).bbox = o := by
    simp only [LTExpandableContainer.empty, LTExpandableContainer.add, expandBBox, sentinelBBox]
    have e0 : min INF o.x0 = o.x0 := min_eq_right h0
    have e1 : min INF o.y0 = o.y0 := min_eq_right h1
    have e2 : max (-INF) o.x1 = o.x1 := max_eq_right h2
    have e3 : max (-INF) o.y1 = o.y1 := max_eq_right h3
    simp [e0, e1, e2, e3]
  rw [hadd]

/-- Claim C3 witness: two concrete children. -/
theorem C3_expandable_bbox_union_witness :
    (LTExpandableContainer.empty.addAll [⟨0,0,1,1⟩, ⟨2,2,3,3⟩]).objs = [⟨0,0,1,1⟩, ⟨2,2,3,3⟩] ∧
    (LTExpandableContainer.empty.addAll [⟨0,0,1,1⟩, ⟨2,2,3,3⟩]).bbox =
      ⟨([⟨2,2,3,3⟩] : List BBox).map BBox.x0 |>.foldl min 0,
       ([⟨2,2,3,3⟩] : List BBox).map BBox.y0 |>.foldl min 0,
       ([⟨2,2,3,3⟩] : List BBox).map BBox.x1 |>.foldl max 1,
       ([⟨2,2,3,3⟩] : List BBox).map BBox.y1 |>.foldl max 1⟩ ∧
    LTExpandableContainer.empty.bbox = sentinelBBox :=
  C3_expandable_bbox_union ⟨0,0,1,1⟩ [⟨2,2,3,3⟩] (by decide)

/-! ## The spatial index (external collaborator)

`utils.Plane` is not among the sources.  Modelled from the spec: a
rectangle-range container over the live nodes supporting insertion, removal
and "all nodes whose box intersects a query rectangle"; insertion order is
preserved by iteration. -/

/-- Modelled from the spec: whether a node's box `b` intersects the query
rectangle `r` (boundary-touching does not count as intersecting). -/
def rectIntersects (r b : BBox) : Bool :=
  !(decide (b.x1 ≤ r.x0) || decide (r.x1 ≤ b.x0) || decide (b.y1 ≤ r.y0) || decide (r.y1 ≤ b.y0))

/-- Modelled from the spec: `Plane.find(rect)` — all live nodes whose box
intersects the query rectangle, in insertion order. -/
def planeFind {α : Type} (box : α → BBox) (plane : List α) (r : BBox) : List α :=
  plane.filter (fun o => rectIntersects r (box o))

/-! ## Text lines in the plane and neighbor search (layout.py 673-751) -/

/-- A text line as the neighbor search sees it: an `LTTextLineHorizontal` or
an `LTTextLineVertical` with its bounding box. -/
inductive LineObj where
  | hline (bbox : BBox)
  | vline (bbox : BBox)
deriving Repr, DecidableEq

/-- The line's bounding box. -/
def LineObj.bbox : LineObj → BBox
  | .hline b => b
  | .vline b => b

/-- Source: `isinstance(obj, LTTextLineHorizontal)`. -/
def LineObj.isH : LineObj → Bool
  | .hline _ => true
  | .vline _ => false

/-- Source: `LTTextLineHorizontal.find_neighbors` (layout.py 710-729).  Note that the
`ratio` argument (`laparams.line_margin`, passed by `group_textlines`) is
received but ignored: the code sets `custom_ratio = 0.25` and uses
`d = custom_ratio * self.height`. -/
def find_neighbors_h (self : BBox) (ratio : ℚ) (plane : List LineObj) : List LineObj :=
  let _ := ratio
  let d : ℚ := (1/4) * self.height
  let objs := planeFind LineObj.bbox plane ⟨self.x0, self.y0 - d, self.x1, self.y1 + d⟩
  objs.filter (fun o =>
    o.isH && decide (|o.bbox.height - self.height| ≤ d) &&
      (decide (|o.bbox.x0 - self.x0| ≤ d) || decide (|o.bbox.x1 - self.x1| ≤ d) ||
        decide (|(o.bbox.x0 + o.bbox.x1) / 2 - (self.x0 + self.x1) / 2| ≤ d)))

/-- The horizontal neighbor search as the SPEC describes it (margin
`line_margin × own height`), written for the refinement comparison with
`find_neighbors_h`. -/
def find_neighbors_h_spec (self : BBox) (ratio : ℚ) (plane : List LineObj) : List LineObj :=
  let d : ℚ := ratio * self.height
  let objs := planeFind LineObj.bbox plane ⟨self.x0, self.y0 - d, self.x1, self.y1 + d⟩
  objs.filter (fun o =>
    o.isH && decide (|o.bbox.height - self.height| ≤ d) &&
      (decide (|o.bbox.x0 - self.x0| ≤ d) || decide (|o.bbox.x1 - self.x1| ≤ d) ||
        decide (|(o.bbox.x0 + o.bbox.x1) / 2 - (self.x0 + self.x1) / 2| ≤ d)))

/-! ## Characters, words, and the word grouper (layout.py 304-639, 1094-1178) -/

/-- Python `round(x, 1)` idealized over exact rationals: round half to even at
one decimal place. -/
def round1 (q : ℚ) : ℚ :=
  let y : ℚ := 10 * q
  let n : ℤ := ⌊y⌋
  let r : ℚ := y - n
  let m : ℤ :=
    if r < 1/2 then n
    else if 1/2 < r then n + 1
    else if n % 2 = 0 then n else n + 1
  (m : ℚ) / 10

/-- An `LTChar` as the grouping code observes it: bounding box, one-character
text, `size` and font name.  (Construction of an `LTChar` from the font
matrix, layout.py 304-345, belongs to the upstream decoder and is not needed
by any claim.) -/
structure ChObj where
  bbox : BBox
  text : String
  size : ℚ
  fontname : String
deriving Repr, DecidableEq

/-- An `LTTextWord` (layout.py 494-639): `vertical` distinguishes
`LTTextWordVertical` from `LTTextWordHorizontal`; `xcur`/`ycur` model the
running `_x1`/`_y0` cursors (each variant only ever touches its own cursor).
`type_tag`/`form_field` are the classification tags, set only by the external
field-classification capability (spec §1, out of scope) and carried inert. -/
structure TWord where
  vertical : Bool
  char_margin_for_word : ℚ
  bbox : BBox
  objs : List ChObj
  fontname : String
  fontsize : ℚ
  num_of_chars : ℕ
  nature : String
  type_tag : String
  form_field : String
  xcur : ℚ
  ycur : ℚ
deriving Repr, DecidableEq

/-- Source: `LTTextWordHorizontal.__init__` (layout.py 530-534). -/
def emptyWordH (cmw : ℚ) : TWord :=
  ⟨false, cmw, sentinelBBox, [], "", 0, 0, "", "", "", INF, -INF⟩

/-- Source: `LTTextWordVertical.__init__` (layout.py 579-583). -/
def emptyWordV (cmw : ℚ) : TWord :=
  ⟨true, cmw, sentinelBBox, [], "", 0, 0, "", "", "", INF, -INF⟩

/-- Source: `LTTextWordHorizontal.add` (layout.py 536-554): set `_x1`, bump the char
count, fix the font size from the first two glyphs, record the first font
name, flag `nature = "form"` on a colon, then append the glyph and expand the
bbox (`LTExpandableContainer.add`). -/
def TWord.addH (w : TWord) (o : ChObj) : TWord :=
  let n := w.num_of_chars + 1
  { w with
    xcur := o.bbox.x1
    num_of_chars := n
    fontsize := if n ≤ 2 then round1 o.size else w.fontsize
    fontname := if w.fontname = "" then o.fontname else w.fontname
    nature := if w.nature = "" ∧ o.text = ":" then "form" else w.nature
    objs := w.objs ++ [o]
    bbox := expandBBox w.bbox o.bbox }

/-- Source: `LTTextWordVertical.add` (layout.py 585-597): like the horizontal variant
but cursoring `_y0` and without the colon/nature check. -/
def TWord.addV (w : TWord) (o : ChObj) : TWord :=
  let n := w.num_of_chars + 1
  { w with
    ycur := o.bbox.y0
    num_of_chars := n
    fontsize := if n ≤ 2 then round1 o.size else w.fontsize
    fontname := if w.fontname = "" then o.fontname else w.fontname
    objs := w.objs ++ [o]
    bbox := expandBBox w.bbox o.bbox }

/-- The `halign` predicate of `group_textchars` (layout.py 1109-1115);
`is_compatible` is identically `True` for characters (layout.py 356-358). -/
def gtcHalign (lap : LAParamsRec) (o0 o1 : ChObj) : Bool :=
  o0.bbox.is_voverlap o1.bbox &&
    decide (min o0.bbox.height o1.bbox.height * lap.line_overlap < o0.bbox.voverlap o1.bbox) &&
    decide (o0.bbox.hdistance o1.bbox <
      max o0.bbox.width o1.bbox.width * lap.char_margin_for_word)

/-- The `valign` predicate of `group_textchars` (layout.py 1131-1138). -/
def gtcValign (lap : LAParamsRec) (o0 o1 : ChObj) : Bool :=
  lap.detect_vertical && o0.bbox.is_hoverlap o1.bbox &&
    decide (min o0.bbox.width o1.bbox.width * lap.line_overlap < o0.bbox.hoverlap o1.bbox) &&
    decide (o0.bbox.vdistance o1.bbox <
      max o0.bbox.height o1.bbox.height * lap.char_margin_for_word)

/-- One iteration of the loop body of `LTLayoutContainer.group_textchars`
(layout.py 1097-1171) on the consecutive pair `(obj0, obj1)` with the
currently open word; returns the words yielded by this iteration and the open
word afterwards. -/
def gtcStep (lap : LAParamsRec) (obj0 : ChObj) (word : Option TWord) (obj1 : ChObj) :
    List TWord × Option TWord :=
  let halign := gtcHalign lap obj0 obj1
  let valign := gtcValign lap obj0 obj1
  match word with
  | some w =>
    if halign && !w.vertical && !(obj1.text == " ") && !(obj1.text == "\n") then
      ([], some (w.addH obj1))
    else ([w], none)
  | none =>
    if valign && !halign then
      let w0 := emptyWordV lap.char_margin_for_word
      let w1 := if obj0.text ≠ " " ∧ obj0.text ≠ "\n" then w0.addV obj0 else w0
      let w2 := if obj1.text ≠ " " ∧ obj1.text ≠ "\n" then w1.addV obj1 else w1
      ([], some w2)
    else if halign && !valign then
      let w0 := emptyWordH lap.char_margin_for_word
      let w1 := if obj0.text ≠ " " ∧ obj0.text ≠ "\n" then w0.addH obj0 else w0
      let w2 := if obj1.text ≠ " " ∧ obj1.text ≠ "\n" then w1.addH obj1 else w1
      ([], some w2)
    else
      let w0 := emptyWordH lap.char_margin_for_word
      let w1 := if obj1.text ≠ " " ∧ obj1.text ≠ "\n" then w0.addH obj0 else w0
      ([w1], none)

/-- The tail of `group_textchars`: iterate `gtcStep` over the remaining
glyphs, then the trailing `if word is None: word.add(obj0); yield word`
(layout.py 1172-1177). -/
def gtcAux (lap : LAParamsRec) : ChObj → Option TWord → List ChObj → List TWord
  | obj0, word, [] =>
    (match word with
     | none => [(emptyWordH lap.char_margin_for_word).addH obj0]
     | some w => [w])
  | obj0, word, obj1 :: rest =>
    let p := gtcStep lap obj0 word obj1
    p.1 ++ gtcAux lap obj1 p.2 rest

/-- Source: `LTLayoutContainer.group_textchars` (layout.py 1094-1178).  On an empty
input the Python generator would call `word.add(None)` and crash; `analyze`
never calls it on an empty input, and the model returns `none` there. -/
def group_textchars (lap : LAParamsRec) : List ChObj → Option (List TWord)
  | [] => none
  | o :: rest => some (gtcAux lap o none rest)

/-! ## Horizontal text lines and their `add` (layout.py 642-751) -/

/-- A member added to a text line: an `LTChar`, an `LTTextWord` (the only
kind `group_objects` actually adds, layout.py 953-979), or an `LTAnno`
marker. -/
inductive LMember where
  | chrM (c : ChObj)
  | wordM (w : TWord)
  | annoM (text : String)
deriving Repr, DecidableEq

/-- An `LTTextLineHorizontal` (layout.py 673-751): `word_margin`, the running
`_x1` cursor (`xcur`), children and aggregated attributes.  The
classification calls inside `add` (layout.py 689-701) go to the external
field-classification capability (spec §1, out of scope); they only set tag
fields and do not affect geometry or membership, and are elided. -/
structure HLine where
  word_margin : ℚ
  bbox : BBox
  objs : List LMember
  fontsize : ℚ
  fontname : String
  nature : String
  xcur : ℚ
deriving Repr, DecidableEq

/-- Source: `LTTextLineHorizontal.__init__` (layout.py 674-677). -/
def HLine.empty (wm : ℚ) : HLine := ⟨wm, sentinelBBox, [], 0, "", "", INF⟩

/-- Source: `LTTextLineHorizontal.add` (layout.py 679-708).  Returns the updated line
and the exception raised, if any: the `LTAnno ' '` marker is inserted only
when the member is an `LTChar` and `word_margin` is truthy; an actual
`LTChar` member then raises `AttributeError` at `obj.nature` (after the
marker branch and `_x1` update already mutated the line), an `LTAnno` member
raises at `self._x1 = obj.x1`, and only `LTTextWord` members complete. -/
def HLine.add (l : HLine) (obj : LMember) : HLine × Option PyError :=
  match obj with
  | .chrM c =>
    let l1 :=
      if l.word_margin ≠ 0 ∧
          l.xcur < c.bbox.x0 - l.word_margin * max c.bbox.width c.bbox.height then
        { l with objs := l.objs ++ [.annoM " "] }
      else l
    ({ l1 with xcur := c.bbox.x1 }, some .attributeError)
  | .wordM w =>
    let l1 := { l with xcur := w.bbox.x1 }
    let l2 :=
      { l1 with nature := if l1.nature = "" ∧ w.nature = "form" then "form" else l1.nature }
    let l3 := { l2 with
      fontsize := if l2.fontsize < w.fontsize then w.fontsize else l2.fontsize
      fontname := if l2.fontname = "" then w.fontname else l2.fontname }
    ({ l3 with objs := l3.objs ++ [.wordM w], bbox := expandBBox l3.bbox w.bbox }, none)
  | .annoM _ => (l, some .attributeError)

/-! ## The `boxes_flow = None` fallback sort (layout.py 1220-1230) -/

/-- A textbox as the fallback sort sees it: `LTTextBoxHorizontal` or
`LTTextBoxVertical`, with its bounding box. -/
inductive TBox where
  | hbox (bbox : BBox)
  | vbox (bbox : BBox)
deriving Repr, DecidableEq

/-- The box's bounding box. -/
def TBox.bbox : TBox → BBox
  | .hbox b => b
  | .vbox b => b

/-- Source: `getkey` of `LTLayoutContainer.analyze` (layout.py 1224-1228): a vertical
box maps to `(0, -x1, -y0)`, any other box to `(1, -y0, x0)`. -/
def getkey : TBox → ℚ × ℚ × ℚ
  | .vbox b => (0, -b.x1, -b.y0)
  | .hbox b => (1, -b.y0, b.x0)

/-- Python tuple comparison: lexicographic. -/
def tripleLe (a b : ℚ × ℚ × ℚ) : Bool :=
  decide (a.1 < b.1) || (decide (a.1 = b.1) &&
    (decide (a.2.1 < b.2.1) || (decide (a.2.1 = b.2.1) && decide (a.2.2 ≤ b.2.2))))

/-- Sorting relation induced by `getkey`. -/
def fallbackRel (a b : TBox) : Prop := tripleLe (getkey a) (getkey b) = true

instance : DecidableRel fallbackRel := fun a b => by
  unfold fallbackRel; infer_instance

/-- Source: `textboxes.sort(key=getkey)` (layout.py 1230): a stable sort by the
fallback key. -/
def fallback_sort (bs : List TBox) : List TBox := bs.insertionSort fallbackRel

/-- The fallback ordering in the corrected claim's vocabulary: vertical-typed
boxes precede horizontal-typed ones; vertical boxes by descending right edge
then descending bottom edge; horizontal boxes by descending BOTTOM edge then
ascending left edge. -/
def amendedLe : TBox → TBox → Prop
  | .vbox _, .hbox _ => True
  | .hbox _, .vbox _ => False
  | .vbox a, .vbox b => b.x1 < a.x1 ∨ (a.x1 = b.x1 ∧ b.y0 ≤ a.y0)
  | .hbox a, .hbox b => b.y0 < a.y0 ∨ (a.y0 = b.y0 ∧ a.x0 ≤ b.x0)

lemma tripleLe_total (a b : ℚ × ℚ × ℚ) : tripleLe a b = true ∨ tripleLe b a = true := by
  unfold tripleLe
  rcases lt_trichotomy a.1 b.1 with h | h | h
  · left; simp [h]
  · rcases lt_trichotomy a.2.1 b.2.1 with h2 | h2 | h2
    · left; simp [h, h2]
    · rcases le_total a.2.2 b.2.2 with h3 | h3
      · left; simp [h, h2, h3]
      · right; simp [h.symm, h2.symm, h3]
    · right; simp [h.symm, h2]
  · right; simp [h]

lemma tripleLe_trans {a b c : ℚ × ℚ × ℚ} (h1 : tripleLe a b = true)
    (h2 : tripleLe b c = true) : tripleLe a c = true := by
  unfold tripleLe at h1 h2 ⊢
  simp only [Bool.or_eq_true, Bool.and_eq_true, decide_eq_true_eq] at h1 h2 ⊢
  rcases h1 with h1 | ⟨e1, h1⟩
  · rcases h2 with h2 | ⟨e2, h2⟩
    · exact Or.inl (h1.trans h2)
    · exact Or.inl (e2 ▸ h1)
  · rcases h2 with h2 | ⟨e2, h2⟩
    · exact Or.inl (by rw [e1]; exact h2)
    · refine Or.inr ⟨e1.trans e2, ?_⟩
      rcases h1 with h1 | ⟨f1, h1⟩
      · rcases h2 with h2 | ⟨f2, h2⟩
        · exact Or.inl (h1.trans h2)
        · exact Or.inl (f2 ▸ h1)
      · rcases h2 with h2 | ⟨f2, h2⟩
        · exact Or.inl (by rw [f1]; exact h2)
        · exact Or.inr ⟨f1.trans f2, h1.trans h2⟩

instance : IsTotal TBox fallbackRel :=
  ⟨fun a b => tripleLe_total (getkey a) (getkey b)⟩

instance : IsTrans TBox fallbackRel :=
  ⟨fun _ _ _ h1 h2 => tripleLe_trans h1 h2⟩

lemma fallbackRel_iff_amendedLe (a b : TBox) : fallbackRel a b ↔ amendedLe a b := by
  cases a with
  | hbox ba =>
    cases b with
    | hbox bb =>
      simp [fallbackRel, tripleLe, getkey, amendedLe, neg_lt_neg_iff, neg_inj, neg_le_neg_iff]
    | vbox bb =>
      simp [fallbackRel, tripleLe, getkey, amendedLe]
  | vbox ba =>
    cases b with
    | hbox bb =>
      simp [fallbackRel, tripleLe, getkey, amendedLe]
    | vbox bb =>
      simp [fallbackRel, tripleLe, getkey, amendedLe, neg_lt_neg_iff, neg_inj, neg_le_neg_iff]

/-! ## Claim theorems: C4, C5, C6, C10 -/

/-- Claim C4 counterexample: with `line_margin = 1/2`, the line
`L = (0,0,10,1)` and the candidate `o = (0, 1.3, 10, 2.7)` (height 1.4,
left-aligned with `L`): `o` satisfies every condition of the claim (it lies in
the rectangle expanded by `line_margin × height = 1/2`, is horizontal, its
height differs by `0.4 ≤ 1/2`, and it is left-aligned within `1/2`), yet the
code does not return it — the code uses the hard-wired `custom_ratio = 0.25`
instead of `line_margin` (layout.py 719-720). -/
theorem C4_counterexample :
    LineObj.hline ⟨0,13/10,10,27/10⟩ ∈
      find_neighbors_h_spec ⟨0,0,10,1⟩ (1/2) [.hline ⟨0,0,10,1⟩, .hline ⟨0,13/10,10,27/10⟩] ∧
    LineObj.hline ⟨0,13/10,10,27/10⟩ ∉
      find_neighbors_h ⟨0,0,10,1⟩ (1/2) [.hline ⟨0,0,10,1⟩, .hline ⟨0,13/10,10,27/10⟩] := by
  constructor
  · simp only [find_neighbors_h_spec, planeFind, List.mem_filter, Bool.and_eq_true,
      Bool.or_eq_true, decide_eq_true_eq, rectIntersects, Bool.not_eq_true',
      Bool.or_eq_false_iff, decide_eq_false_iff_not, LineObj.bbox, LineObj.isH, BBox.height,
      List.mem_cons, List.not_mem_nil]
    norm_num [abs_le]
  · simp only [find_neighbors_h, planeFind, List.mem_filter, Bool.and_eq_true,
      Bool.or_eq_true, decide_eq_true_eq, rectIntersects, Bool.not_eq_true',
      Bool.or_eq_false_iff, decide_eq_false_iff_not, LineObj.bbox, LineObj.isH, BBox.height]
    intro h
    have h2 := h.1.2
    norm_num at h2

/-- Claim C4 (amended: the expansion/tolerance margin is the hard-wired
`0.25 × height`, not `line_margin × height`): a candidate is returned by the
horizontal neighbor search iff it is in the plane, its box intersects `L`'s
rectangle expanded vertically by `d = height/4`, it is a horizontal line,
its height differs from `L`'s by at most `d`, and it is left-, right- or
centrally-aligned with `L` within `d` (layout.py 710-729). -/
theorem C4_neighbors_quarter_margin (self : BBox) (ratio : ℚ) (plane : List LineObj)
    (o : LineObj) :
    o ∈ find_neighbors_h self ratio plane ↔
      o ∈ plane ∧
      rectIntersects ⟨self.x0, self.y0 - (1/4) * self.height, self.x1,
        self.y1 + (1/4) * self.height⟩ o.bbox = true ∧
      o.isH = true ∧
      |o.bbox.height - self.height| ≤ (1/4) * self.height ∧
      (|o.bbox.x0 - self.x0| ≤ (1/4) * self.height ∨
       |o.bbox.x1 - self.x1| ≤ (1/4) * self.height ∨
       |(o.bbox.x0 + o.bbox.x1) / 2 - (self.x0 + self.x1) / 2| ≤ (1/4) * self.height) := by
  simp only [find_neighbors_h, planeFind, List.mem_filter, Bool.and_eq_true, Bool.or_eq_true,
    decide_eq_true_eq]
  tauto

/-- Claim C5 (code bug): the synthetic-space rule never fires in the
pipeline.  Two `LTTextWord` members with an inter-word gap of `4`, far larger
than `word_margin × max(width, height) = 1/10`, are added to a fresh
horizontal line and NO space marker is inserted (the guard
`isinstance(obj, LTChar)` at layout.py 680 never holds for the word members
that `group_objects` adds), though the claim and `LAParams`'s own docstring
promise exactly one; and `add` on an actual `LTChar` raises
`AttributeError` at `obj.nature`, so the char path cannot complete either. -/
theorem C5_no_marker_for_word_members :
    (HLine.add (HLine.empty (1/10))
        (.wordM ((emptyWordH (1/20)).addH ⟨⟨0,0,1,1⟩, "A", 1, "f"⟩))).2 = none ∧
    ((HLine.add (HLine.empty (1/10))
        (.wordM ((emptyWordH (1/20)).addH ⟨⟨0,0,1,1⟩, "A", 1, "f"⟩))).1.add
        (.wordM ((emptyWordH (1/20)).addH ⟨⟨5,0,6,1⟩, "B", 1, "f"⟩))).2 = none ∧
    ((HLine.add (HLine.empty (1/10))
        (.wordM ((emptyWordH (1/20)).addH ⟨⟨0,0,1,1⟩, "A", 1, "f"⟩))).1.add
        (.wordM ((emptyWordH (1/20)).addH ⟨⟨5,0,6,1⟩, "B", 1, "f"⟩))).1.objs =
      [.wordM ((emptyWordH (1/20)).addH ⟨⟨0,0,1,1⟩, "A", 1, "f"⟩),
       .wordM ((emptyWordH (1/20)).addH ⟨⟨5,0,6,1⟩, "B", 1, "f"⟩)] ∧
    ((emptyWordH (1/20)).addH ⟨⟨5,0,6,1⟩, "B", 1, "f"⟩).bbox.x0 -
        ((emptyWordH (1/20)).addH ⟨⟨0,0,1,1⟩, "A", 1, "f"⟩).bbox.x1 >
      (1/10) * max ((emptyWordH (1/20)).addH ⟨⟨5,0,6,1⟩, "B", 1, "f"⟩).bbox.width
        ((emptyWordH (1/20)).addH ⟨⟨5,0,6,1⟩, "B", 1, "f"⟩).bbox.height ∧
    (HLine.add (HLine.empty (1/10)) (.chrM ⟨⟨5,0,6,1⟩, "B", 1, "f"⟩)).2 =
      some .attributeError := by
  refine ⟨rfl, rfl, rfl, ?_, rfl⟩
  norm_num [TWord.addH, emptyWordH, expandBBox, sentinelBBox, INF, BBox.width, BBox.height,
    min_def, max_def]

/-- Claim C6 counterexample: with `boxes_flow = None`, the horizontal boxes
`A = (0,0,1,5)` (top edge 5, bottom edge 0) and `B = (5,1,6,3)` (top edge 3,
bottom edge 1) sort as `[B, A]` — NOT by descending top edge as the claim
states (B's top edge is smaller), because the code keys horizontal boxes on
the BOTTOM edge `-y0` (layout.py 1228). -/
theorem C6_counterexample :
    fallback_sort [.hbox ⟨0,0,1,5⟩, .hbox ⟨5,1,6,3⟩] =
      [.hbox ⟨5,1,6,3⟩, .hbox ⟨0,0,1,5⟩] ∧
    (BBox.mk 5 1 6 3).y1 < (BBox.mk 0 0 1 5).y1 := by
  refine ⟨by decide, by norm_num⟩

/-- Claim C6 (amended: horizontal boxes are keyed by descending bottom edge,
not top edge): the `boxes_flow = None` fallback sort returns a permutation of
the boxes ordered so that vertical-typed boxes precede horizontal-typed ones,
vertical boxes by descending right edge then descending bottom edge, and
horizontal boxes by descending bottom edge then ascending left edge
(layout.py 1220-1230). -/
theorem C6_fallback_sort_order (bs : List TBox) :
    (fallback_sort bs).Pairwise amendedLe ∧ (fallback_sort bs).Perm bs := by
  constructor
  · exact (List.sorted_insertionSort fallbackRel bs).imp
      (fun h => (fallbackRel_iff_amendedLe _ _).mp h)
  · exact List.perm_insertionSort fallbackRel bs

/-- Claim C10: in the word grouper's fallback branch (layout.py 1165-1171) —
neither alignment predicate holds and no word is open — the step yields one
fresh horizontal word; it contains exactly the earlier glyph `obj0` when the
later glyph `obj1`'s text is not a space or newline, and is empty (dropping
`obj0`) when `obj1` is a space/newline marker. -/
theorem C10_fallback_word_branch (lap : LAParamsRec) (obj0 obj1 : ChObj)
    (hh : gtcHalign lap obj0 obj1 = false) (hv : gtcValign lap obj0 obj1 = false) :
    ∃ w : TWord,
      gtcStep lap obj0 none obj1 = ([w], none) ∧ w.vertical = false ∧
      w.objs = (if obj1.text = " " ∨ obj1.text = "\n" then [] else [obj0]) := by
  by_cases hsp : obj1.text = " " ∨ obj1.text = "\n"
  · refine ⟨emptyWordH lap.char_margin_for_word, ?_, rfl, ?_⟩
    · have hc : ¬(obj1.text ≠ " " ∧ obj1.text ≠ "\n") := by
        rcases hsp with h | h
        · exact fun hcp => hcp.1 h
        · exact fun hcp => hcp.2 h
      simp [gtcStep, hh, hv, hc]
    · rw [if_pos hsp]; rfl
  · push_neg at hsp
    refine ⟨(emptyWordH lap.char_margin_for_word).addH obj0, ?_, rfl, ?_⟩
    · simp [gtcStep, hh, hv, hsp.1, hsp.2]
    · rw [if_neg (not_or.mpr ⟨hsp.1, hsp.2⟩)]
      simp [TWord.addH, emptyWordH]

/-- Claim C10 witness: a concrete far-apart pair whose later glyph is a
space, evaluated through the theorem. -/
theorem C10_fallback_word_branch_witness :
    ∃ w : TWord,
      gtcStep ⟨1/2, 2, 1/2, 1/10, .pyfloat (1/2), 1/20, false, false⟩
        ⟨⟨0,0,1,1⟩, "A", 1, "f"⟩ none ⟨⟨100,0,101,1⟩, " ", 1, "f"⟩ = ([w], none) ∧
      w.vertical = false ∧
      w.objs = (if (" " : String) = " " ∨ (" " : String) = "\n" then []
        else [⟨⟨0,0,1,1⟩, "A", 1, "f"⟩]) :=
  C10_fallback_word_branch ⟨1/2, 2, 1/2, 1/10, .pyfloat (1/2), 1/20, false, false⟩
    ⟨⟨0,0,1,1⟩, "A", 1, "f"⟩ ⟨⟨100,0,101,1⟩, " ", 1, "f"⟩
    (by norm_num [gtcHalign, BBox.is_voverlap, BBox.voverlap, BBox.hdistance,
      BBox.is_hoverlap, BBox.height, BBox.width, min_def, max_def])
    (by simp [gtcValign])

/-! ## Textboxes, groups, and the hierarchical clusterer (layout.py 1014-1092) -/

/-- A node of the hierarchical clusterer: an `LTTextBox` (`vertical = true`
for `LTTextBoxVertical`) or an `LTTextGroup` (`tbrl = true` for
`LTTextGroupTBRL`), carrying the CPython object identity `id` used by the
heap keys and the `done` set; a group's `children` is the list passed to
`LTTextGroup.__init__`. -/
inductive GObj where
  | tbox (id : ℕ) (bbox : BBox) (vertical : Bool)
  | tgroup (id : ℕ) (bbox : BBox) (tbrl : Bool) (children : List GObj)

/-- The object identity `id(obj)`. -/
def GObj.id : GObj → ℕ
  | .tbox i _ _ => i
  | .tgroup i _ _ _ => i

/-- The node's bounding box. -/
def GObj.bbox : GObj → BBox
  | .tbox _ b _ => b
  | .tgroup _ b _ _ => b

/-- Source: `isinstance(obj, (LTTextBoxVertical, LTTextGroupTBRL))` (layout.py 1079-1080). -/
def GObj.verticalTyped : GObj → Bool
  | .tbox _ _ v => v
  | .tgroup _ _ t _ => t

/-- The `dist` function of `group_textboxes` (layout.py 1032-1049): area of
the bounding rectangle of the pair, less the areas of the two boxes. -/
def boxdist (o1 o2 : GObj) : ℚ :=
  let x0 := min o1.bbox.x0 o2.bbox.x0
  let y0 := min o1.bbox.y0 o2.bbox.y0
  let x1 := max o1.bbox.x1 o2.bbox.x1
  let y1 := max o1.bbox.y1 o2.bbox.y1
  (x1 - x0) * (y1 - y0) - o1.bbox.width * o1.bbox.height - o2.bbox.width * o2.bbox.height

/-- The `isany` check of `group_textboxes` (layout.py 1051-1058): the live
objects (other than `obj1` and `obj2` themselves, compared by identity) whose
box intersects the union rectangle of `obj1` and `obj2`; truthiness of the
resulting set, i.e. nonemptiness. -/
def isany (o1 o2 : GObj) (plane : List GObj) : Bool :=
  let r : BBox := ⟨min o1.bbox.x0 o2.bbox.x0, min o1.bbox.y0 o2.bbox.y0,
    max o1.bbox.x1 o2.bbox.x1, max o1.bbox.y1 o2.bbox.y1⟩
  !((planeFind GObj.bbox plane r).filter
      (fun o => !decide (o.id = o1.id) && !decide (o.id = o2.id))).isEmpty

/-- The merge step of `group_textboxes` (layout.py 1079-1083): build
`LTTextGroupTBRL([obj1, obj2])` if either input is vertical-typed, else
`LTTextGroupLRTB([obj1, obj2])`; the group's bbox results from
`LTExpandableContainer.add`-ing both children over the sentinel box
(`LTTextGroup.__init__` extends over its children).  `gid` models the fresh
object identity `id(group)`. -/
def mkGroup (gid : ℕ) (o1 o2 : GObj) : GObj :=
  .tgroup gid (expandBBox (expandBBox sentinelBBox o1.bbox) o2.bbox)
    (o1.verticalTyped || o2.verticalTyped) [o1, o2]

/-- A heap entry `(skip_isany, dist, id(obj1), id(obj2), obj1, obj2)`
(layout.py 1060-1066). -/
structure Entry where
  skip : Bool
  d : ℚ
  id1 : ℕ
  id2 : ℕ
  obj1 : GObj
  obj2 : GObj

/-- Python's lexicographic tuple comparison on the first four components of a
heap entry (`False < True`).  In every reachable state the keys are pairwise
distinct on these components, so Python's comparison never reaches the object
components (whose `LTComponent.__lt__` would raise — the reason the ids
precede the objects in the tuple, layout.py 1022-1026). -/
def entryLt (a b : Entry) : Bool :=
  (!a.skip && b.skip) ||
    ((a.skip == b.skip) &&
      (decide (a.d < b.d) ||
        (decide (a.d = b.d) &&
          (decide (a.id1 < b.id1) ||
            (decide (a.id1 = b.id1) && decide (a.id2 < b.id2))))))

/-- Source: `heapq.heappop`: pop the minimum entry; the remaining entries are a
permutation of the rest (the heap layout itself is immaterial because the
queue is only consumed through pops).  On full key ties the earliest entry is
preferred (unreachable: keys are pairwise distinct in reachable states). -/
def popMin : List Entry → Option (Entry × List Entry)
  | [] => none
  | e :: es =>
    match popMin es with
    | none => some (e, [])
    | some (m, rest) => if entryLt m e then some (m, e :: rest) else some (e, es)

/-- Modelled from the spec: `Plane.remove(obj)` removes the node; objects are
distinguished by identity, so under the distinct-ids invariant this removes
exactly the given object. -/
def planeRemove (plane : List GObj) (o : GObj) : List GObj :=
  plane.filter (fun x => !decide (x.id = o.id))

/-- The loop state of `group_textboxes`: the heap, the plane of live nodes in
insertion order, the `done` set of consumed identities, the index into the
fresh-identity supply, and — instrumentation, not a source variable — the
number of merges performed so far. -/
structure GTState where
  dists : List Entry
  plane : List GObj
  done : List ℕ
  idx : ℕ
  merges : ℕ

/-- One iteration of the `while dists:` loop of `group_textboxes`
(layout.py 1072-1091), with `fresh` supplying the object identities of newly
allocated groups.  Note the source tests `if skip_isany and isany(obj1, obj2)`
— the obstruction-deferral branch fires only when the flag is ALREADY set. -/
def gtBody (fresh : ℕ → ℕ) (s : GTState) : GTState :=
  match popMin s.dists with
  | none => s
  | some (e, rest) =>
    if e.id1 ∈ s.done ∨ e.id2 ∈ s.done then { s with dists := rest }
    else if e.skip && isany e.obj1 e.obj2 s.plane then
      { s with dists := rest ++ [{ e with skip := true }] }
    else
      let gid := fresh s.idx
      let group := mkGroup gid e.obj1 e.obj2
      let plane1 := planeRemove (planeRemove s.plane e.obj1) e.obj2
      let newEntries := plane1.map
        (fun other => ⟨false, boxdist group other, gid, other.id, group, other⟩)
      { dists := rest ++ newEntries
        plane := plane1 ++ [group]
        done := e.id1 :: e.id2 :: s.done
        idx := s.idx + 1
        merges := s.merges + 1 }

/-- The `while` loop, driven by fuel (the source loop always terminates from
a reachable initial state: claim C2). -/
def gtLoop (fresh : ℕ → ℕ) : ℕ → GTState → Option GTState
  | 0, s => if s.dists.isEmpty then some s else none
  | n + 1, s => if s.dists.isEmpty then some s else gtLoop fresh n (gtBody fresh s)

/-- The initial heap contents (layout.py 1060-1067): one entry per unordered
pair of distinct input boxes, in nested-loop order, flag unset.
(`heapq.heapify` only reorders the list, which is immaterial here.) -/
def initDists : List GObj → List Entry
  | [] => []
  | b :: bs =>
    bs.map (fun b2 => ⟨false, boxdist b b2, b.id, b2.id, b, b2⟩) ++ initDists bs

/-- Source: `LTLayoutContainer.group_textboxes` (layout.py 1014-1092), parameterized
by the supply of fresh group identities; returns `list(plane)` (the live set
in insertion order) and the number of merges performed.  The fuel bounds the
number of loop iterations from the initial state (proved in C2). -/
def group_textboxes_with (fresh : ℕ → ℕ) (boxes : List GObj) : Option (List GObj × ℕ) :=
  let dists := initDists boxes
  let fuel := dists.length + boxes.length * boxes.length + 1
  (gtLoop fresh fuel ⟨dists, boxes, [], 0, 0⟩).map (fun s => (s.plane, s.merges))

/-- The largest input identity. -/
def maxId (boxes : List GObj) : ℕ := (boxes.map GObj.id).foldr max 0

/-- Source: `group_textboxes` with a canonical fresh-identity supply: every new group
identity is distinct from all live identities, as CPython guarantees for
`id()` of newly allocated objects that stay referenced. -/
def group_textboxes (boxes : List GObj) : Option (List GObj × ℕ) :=
  group_textboxes_with (fun k => maxId boxes + 1 + k) boxes

/-! ### Lemmas about the clusterer's auxiliary operations -/

lemma popMin_perm {l : List Entry} {e : Entry} {r : List Entry}
    (h : popMin l = some (e, r)) : l.Perm (e :: r) := by
  induction l generalizing e r with
  | nil => simp [popMin] at h
  | cons x xs ih =>
    rw [popMin] at h
    cases hx : popMin xs with
    | none =>
      rw [hx] at h
      simp only [Option.some.injEq, Prod.mk.injEq] at h
      obtain ⟨rfl, rfl⟩ := h
      cases xs with
      | nil => exact List.Perm.refl _
      | cons y ys =>
        exfalso
        rw [popMin] at hx
        cases hys : popMin ys <;> rw [hys] at hx <;> dsimp only at hx
        · simp at hx
        · rename_i p
          obtain ⟨m, rest⟩ := p
          by_cases hlt : entryLt m y = true
          · rw [if_pos hlt] at hx; simp at hx
          · rw [if_neg hlt] at hx; simp at hx
    | some p =>
      obtain ⟨m, rest⟩ := p
      rw [hx] at h
      dsimp only at h
      by_cases hlt : entryLt m x = true
      · rw [if_pos hlt] at h
        simp only [Option.some.injEq, Prod.mk.injEq] at h
        obtain ⟨rfl, rfl⟩ := h
        exact ((ih hx).cons x).trans (List.Perm.swap m x rest)
      · rw [if_neg hlt] at h
        simp only [Option.some.injEq, Prod.mk.injEq] at h
        obtain ⟨rfl, rfl⟩ := h
        exact List.Perm.refl _

lemma popMin_ne_nil {l : List Entry} (h : l ≠ []) : ∃ e r, popMin l = some (e, r) := by
  cases l with
  | nil => exact absurd rfl h
  | cons x xs =>
    rw [popMin]
    cases hx : popMin xs with
    | none => exact ⟨x, [], rfl⟩
    | some p =>
      obtain ⟨m, rest⟩ := p
      by_cases hlt : entryLt m x
      · exact ⟨m, x :: rest, by simp [hlt]⟩
      · exact ⟨x, xs, by simp [hlt]⟩

lemma planeRemove_mem {plane : List GObj} {o x : GObj} :
    x ∈ planeRemove plane o ↔ x ∈ plane ∧ x.id ≠ o.id := by
  simp [planeRemove, List.mem_filter]

lemma planeRemove_nodup {plane : List GObj} (h : (plane.map GObj.id).Nodup) (o : GObj) :
    ((planeRemove plane o).map GObj.id).Nodup :=
  List.Nodup.sublist ((List.filter_sublist plane).map GObj.id) h

lemma planeRemove_eq_self {plane : List GObj} {o : GObj}
    (h : ∀ y ∈ plane, y.id ≠ o.id) : planeRemove plane o = plane := by
  unfold planeRemove
  exact List.filter_eq_self.mpr (fun a ha => by simp [h a ha])

lemma planeRemove_length {plane : List GObj} {o : GObj}
    (hn : (plane.map GObj.id).Nodup) (ho : o ∈ plane) :
    (planeRemove plane o).length + 1 = plane.length := by
  induction plane with
  | nil => simp at ho
  | cons x xs ih =>
    simp only [List.map_cons, List.nodup_cons] at hn
    rcases List.mem_cons.mp ho with heq | hmem
    · subst heq
      unfold planeRemove
      rw [List.filter_cons, if_neg (by simp)]
      have hall : ∀ y ∈ xs, y.id ≠ o.id := by
        intro y hy hcontra
        exact hn.1 (hcontra ▸ List.mem_map_of_mem GObj.id hy)
      rw [show List.filter (fun x => !decide (x.id = o.id)) xs = planeRemove xs o from rfl,
        planeRemove_eq_self hall]
      simp
    · have hxo : x.id ≠ o.id := by
        intro hcontra
        exact hn.1 (hcontra ▸ List.mem_map_of_mem GObj.id hmem)
      unfold planeRemove
      rw [List.filter_cons, if_pos (by simp [hxo])]
      simp only [List.length_cons]
      rw [show List.filter (fun y => !decide (y.id = o.id)) xs = planeRemove xs o from rfl]
      have := ih hn.2 hmem
      omega

lemma maxId_cons (x : GObj) (xs : List GObj) : maxId (x :: xs) = max x.id (maxId xs) := rfl

lemma le_maxId {boxes : List GObj} {b : GObj} (hb : b ∈ boxes) : b.id ≤ maxId boxes := by
  induction boxes with
  | nil => simp at hb
  | cons x xs ih =>
    rw [maxId_cons]
    rcases List.mem_cons.mp hb with heq | hmem
    · subst heq; exact le_max_left _ _
    · exact le_trans (ih hmem) (le_max_right _ _)

lemma initDists_basic {boxes : List GObj} :
    ∀ e ∈ initDists boxes, e.skip = false ∧ e.obj1.id = e.id1 ∧ e.obj2.id = e.id2 ∧
      e.obj1 ∈ boxes ∧ e.obj2 ∈ boxes := by
  induction boxes with
  | nil => simp [initDists]
  | cons x xs ih =>
    intro e he
    rw [initDists] at he
    rcases List.mem_append.mp he with hmap | htail
    · obtain ⟨b2, hb2, rfl⟩ := List.mem_map.mp hmap
      exact ⟨rfl, rfl, rfl, List.mem_cons_self _ _, List.mem_cons_of_mem _ hb2⟩
    · obtain ⟨h1, h2, h3, h4, h5⟩ := ih e htail
      exact ⟨h1, h2, h3, List.mem_cons_of_mem _ h4, List.mem_cons_of_mem _ h5⟩

lemma initDists_ne {boxes : List GObj} (hn : (boxes.map GObj.id).Nodup) :
    ∀ e ∈ initDists boxes, e.id1 ≠ e.id2 := by
  induction boxes with
  | nil => simp [initDists]
  | cons x xs ih =>
    simp only [List.map_cons, List.nodup_cons] at hn
    intro e he
    rw [initDists] at he
    rcases List.mem_append.mp he with hmap | htail
    · obtain ⟨b2, hb2, rfl⟩ := List.mem_map.mp hmap
      intro hcontra
      exact hn.1 ((show x.id = b2.id from hcontra) ▸ List.mem_map_of_mem GObj.id hb2)
    · exact ih hn.2 e htail

lemma initDists_cover {boxes : List GObj} :
    ∀ a ∈ boxes, ∀ b ∈ boxes, a.id ≠ b.id →
      ∃ e ∈ initDists boxes,
        (e.id1 = a.id ∧ e.id2 = b.id) ∨ (e.id1 = b.id ∧ e.id2 = a.id) := by
  induction boxes with
  | nil => simp
  | cons x xs ih =>
    intro a ha b hb hne
    rw [initDists]
    rcases List.mem_cons.mp ha with rfl | hamem
    · rcases List.mem_cons.mp hb with rfl | hbmem
      · exact absurd rfl hne
      · exact ⟨⟨false, boxdist a b, a.id, b.id, a, b⟩,
          List.mem_append_left _ (List.mem_map.mpr ⟨b, hbmem, rfl⟩), Or.inl ⟨rfl, rfl⟩⟩
    · rcases List.mem_cons.mp hb with rfl | hbmem
      · exact ⟨⟨false, boxdist b a, b.id, a.id, b, a⟩,
          List.mem_append_left _ (List.mem_map.mpr ⟨a, hamem, rfl⟩), Or.inr ⟨rfl, rfl⟩⟩
      · obtain ⟨e, hmem, hor⟩ := ih a hamem b hbmem hne
        exact ⟨e, List.mem_append_right _ hmem, hor⟩

/-! ### The loop invariant of `group_textboxes` and its preservation -/

/-- The loop invariant: all heap flags are unset (which makes the
obstruction-deferral branch unreachable), entries are consistent with their
objects, every pair of distinct live nodes is covered by a heap entry, live
identities are pairwise distinct and unconsumed, and the fresh-identity
supply has not been used yet. -/
structure GTInv (fresh : ℕ → ℕ) (s : GTState) : Prop where
  flags : ∀ e ∈ s.dists, e.skip = false
  pairObjs : ∀ e ∈ s.dists, e.obj1.id = e.id1 ∧ e.obj2.id = e.id2 ∧ e.id1 ≠ e.id2
  pairLive : ∀ e ∈ s.dists,
    (e.id1 ∉ s.done → e.obj1 ∈ s.plane) ∧ (e.id2 ∉ s.done → e.obj2 ∈ s.plane)
  cover : ∀ a ∈ s.plane, ∀ b ∈ s.plane, a.id ≠ b.id →
    ∃ e ∈ s.dists, (e.id1 = a.id ∧ e.id2 = b.id) ∨ (e.id1 = b.id ∧ e.id2 = a.id)
  planeNodup : (s.plane.map GObj.id).Nodup
  planeNotDone : ∀ a ∈ s.plane, a.id ∉ s.done
  freshNew : ∀ a ∈ s.plane, ∀ k, s.idx ≤ k → a.id ≠ fresh k
  doneFresh : ∀ i ∈ s.done, ∀ k, s.idx ≤ k → i ≠ fresh k

lemma gtBody_step (fresh : ℕ → ℕ) (hf : Function.Injective fresh) (s : GTState)
    (hinv : GTInv fresh s) (hne : s.dists ≠ []) :
    GTInv fresh (gtBody fresh s) ∧
    (gtBody fresh s).dists.length +
        (gtBody fresh s).plane.length * (gtBody fresh s).plane.length <
      s.dists.length + s.plane.length * s.plane.length ∧
    (gtBody fresh s).plane.length + (gtBody fresh s).merges = s.plane.length + s.merges ∧
    ((gtBody fresh s).plane = [] → s.plane = []) := by
  obtain ⟨e, rest, hpop⟩ := popMin_ne_nil hne
  have hperm := popMin_perm hpop
  have hmem_e : e ∈ s.dists := hperm.mem_iff.mpr (List.mem_cons_self _ _)
  have hrest_sub : ∀ x ∈ rest, x ∈ s.dists := fun x hx =>
    hperm.mem_iff.mpr (List.mem_cons_of_mem _ hx)
  have hlen : s.dists.length = rest.length + 1 := by
    have := hperm.length_eq
    simpa using this
  have hskip : e.skip = false := hinv.flags e hmem_e
  by_cases hdone : e.id1 ∈ s.done ∨ e.id2 ∈ s.done
  · -- discard branch: one of the endpoints was already consumed
    have hb : gtBody fresh s = { s with dists := rest } := by
      unfold gtBody
      rw [hpop]
      dsimp only
      rw [if_pos hdone]
    rw [hb]
    have hcover : ∀ a ∈ s.plane, ∀ b ∈ s.plane, a.id ≠ b.id →
        ∃ x ∈ rest, (x.id1 = a.id ∧ x.id2 = b.id) ∨ (x.id1 = b.id ∧ x.id2 = a.id) := by
      intro a ha b hb' hab
      obtain ⟨x, hx, hor⟩ := hinv.cover a ha b hb' hab
      have hx' : x ∈ e :: rest := hperm.mem_iff.mp hx
      rcases List.mem_cons.mp hx' with rfl | hrest
      · exfalso
        have hnd_a := hinv.planeNotDone a ha
        have hnd_b := hinv.planeNotDone b hb'
        rcases hor with ⟨h1, h2⟩ | ⟨h1, h2⟩ <;> rcases hdone with hd | hd
        · exact hnd_a (h1 ▸ hd)
        · exact hnd_b (h2 ▸ hd)
        · exact hnd_b (h1 ▸ hd)
        · exact hnd_a (h2 ▸ hd)
      · exact ⟨x, hrest, hor⟩
    refine ⟨⟨fun x hx => hinv.flags x (hrest_sub x hx),
             fun x hx => hinv.pairObjs x (hrest_sub x hx),
             fun x hx => hinv.pairLive x (hrest_sub x hx),
             hcover, hinv.planeNodup, hinv.planeNotDone,
             hinv.freshNew, hinv.doneFresh⟩, ?_, rfl, fun h => h⟩
    simp only
    omega
  · -- merge branch (since the flag is unset, the deferral test is false)
    push_neg at hdone
    obtain ⟨hd1, hd2⟩ := hdone
    obtain ⟨ho1, ho2, h12⟩ := hinv.pairObjs e hmem_e
    obtain ⟨hl1, hl2⟩ := hinv.pairLive e hmem_e
    have hobj1 : e.obj1 ∈ s.plane := hl1 hd1
    have hobj2 : e.obj2 ∈ s.plane := hl2 hd2
    set gid := fresh s.idx with hgid
    set G := mkGroup gid e.obj1 e.obj2 with hG
    set K := planeRemove (planeRemove s.plane e.obj1) e.obj2 with hK
    set newE := K.map (fun other => Entry.mk false (boxdist G other) gid other.id G other)
      with hnewE
    have hb : gtBody fresh s =
        { dists := rest ++ newE, plane := K ++ [G], done := e.id1 :: e.id2 :: s.done,
          idx := s.idx + 1, merges := s.merges + 1 } := by
      unfold gtBody
      rw [hpop]
      dsimp only
      rw [if_neg (by push_neg; exact ⟨hd1, hd2⟩), hskip]
      simp
    rw [hb]
    have hGid : G.id = gid := rfl
    have hnodup1 : ((planeRemove s.plane e.obj1).map GObj.id).Nodup :=
      planeRemove_nodup hinv.planeNodup _
    have hlen1 : (planeRemove s.plane e.obj1).length + 1 = s.plane.length :=
      planeRemove_length hinv.planeNodup hobj1
    have hne21 : e.obj2.id ≠ e.obj1.id := by
      rw [ho1, ho2]; exact h12.symm
    have hobj2' : e.obj2 ∈ planeRemove s.plane e.obj1 :=
      planeRemove_mem.mpr ⟨hobj2, hne21⟩
    have hlen2 : K.length + 1 = (planeRemove s.plane e.obj1).length :=
      planeRemove_length hnodup1 hobj2'
    have hnodupK : (K.map GObj.id).Nodup := planeRemove_nodup hnodup1 _
    have hmemK : ∀ x, x ∈ K ↔ x ∈ s.plane ∧ x.id ≠ e.id1 ∧ x.id ≠ e.id2 := by
      intro x
      rw [hK, planeRemove_mem, planeRemove_mem, ho1, ho2, and_assoc]
    have hKfresh : ∀ x ∈ K, x.id ≠ gid := fun x hx =>
      hinv.freshNew x ((hmemK x).mp hx).1 s.idx le_rfl
    -- the new invariant, field by field
    have hflags : ∀ x ∈ rest ++ newE, x.skip = false := by
      intro x hx
      rcases List.mem_append.mp hx with h | h
      · exact hinv.flags x (hrest_sub x h)
      · obtain ⟨other, _, rfl⟩ := List.mem_map.mp h
        rfl
    have hpairObjs : ∀ x ∈ rest ++ newE,
        x.obj1.id = x.id1 ∧ x.obj2.id = x.id2 ∧ x.id1 ≠ x.id2 := by
      intro x hx
      rcases List.mem_append.mp hx with h | h
      · exact hinv.pairObjs x (hrest_sub x h)
      · obtain ⟨other, hother, rfl⟩ := List.mem_map.mp h
        exact ⟨hGid, rfl, (hKfresh other hother).symm⟩
    have hpairLive : ∀ x ∈ rest ++ newE,
        (x.id1 ∉ e.id1 :: e.id2 :: s.done → x.obj1 ∈ K ++ [G]) ∧
        (x.id2 ∉ e.id1 :: e.id2 :: s.done → x.obj2 ∈ K ++ [G]) := by
      intro x hx
      rcases List.mem_append.mp hx with h | h
      · obtain ⟨hx1, hx2, _⟩ := hinv.pairObjs x (hrest_sub x h)
        obtain ⟨hxl1, hxl2⟩ := hinv.pairLive x (hrest_sub x h)
        constructor
        · intro hnd
          simp only [List.mem_cons, not_or] at hnd
          obtain ⟨hne1, hne2, hnd'⟩ := hnd
          exact List.mem_append_left _ ((hmemK _).mpr
            ⟨hxl1 hnd', by rw [hx1]; exact hne1, by rw [hx1]; exact hne2⟩)
        · intro hnd
          simp only [List.mem_cons, not_or] at hnd
          obtain ⟨hne1, hne2, hnd'⟩ := hnd
          exact List.mem_append_left _ ((hmemK _).mpr
            ⟨hxl2 hnd', by rw [hx2]; exact hne1, by rw [hx2]; exact hne2⟩)
      · obtain ⟨other, hother, rfl⟩ := List.mem_map.mp h
        exact ⟨fun _ => List.mem_append_right _ (List.mem_singleton_self _),
               fun _ => List.mem_append_left _ hother⟩
    have hcover : ∀ a ∈ K ++ [G], ∀ b ∈ K ++ [G], a.id ≠ b.id →
        ∃ x ∈ rest ++ newE,
          (x.id1 = a.id ∧ x.id2 = b.id) ∨ (x.id1 = b.id ∧ x.id2 = a.id) := by
      intro a ha b hb' hab
      rcases List.mem_append.mp ha with haK | haG
      · rcases List.mem_append.mp hb' with hbK | hbG
        · -- both survivors: their old covering entry is not the popped one
          obtain ⟨haP, ha1, ha2⟩ := (hmemK a).mp haK
          obtain ⟨hbP, hb1, hb2⟩ := (hmemK b).mp hbK
          obtain ⟨x, hx, hor⟩ := hinv.cover a haP b hbP hab
          have hx' : x ∈ e :: rest := hperm.mem_iff.mp hx
          rcases List.mem_cons.mp hx' with rfl | hrest
          · exfalso
            rcases hor with ⟨h1, _⟩ | ⟨h1, _⟩
            · exact ha1 h1.symm
            · exact hb1 h1.symm
          · exact ⟨x, List.mem_append_left _ hrest, hor⟩
        · -- b is the new group: the freshly pushed (group, a) entry covers it
          have hbG' : b = G := List.mem_singleton.mp hbG
          subst hbG'
          exact ⟨Entry.mk false (boxdist G a) gid a.id G a,
            List.mem_append_right _ (List.mem_map.mpr ⟨a, haK, rfl⟩),
            Or.inr ⟨hGid ▸ rfl, rfl⟩⟩
      · have haG' : a = G := List.mem_singleton.mp haG
        subst haG'
        rcases List.mem_append.mp hb' with hbK | hbG
        · exact ⟨Entry.mk false (boxdist G b) gid b.id G b,
            List.mem_append_right _ (List.mem_map.mpr ⟨b, hbK, rfl⟩),
            Or.inl ⟨hGid ▸ rfl, rfl⟩⟩
        · have hbG' : b = G := List.mem_singleton.mp hbG
          subst hbG'
          exact absurd rfl hab
    have hnodup' : ((K ++ [G]).map GObj.id).Nodup := by
      rw [List.map_append]
      refine List.Nodup.append hnodupK (List.nodup_singleton _) ?_
      intro i hiK hiG
      simp only [List.map_cons, List.map_nil, List.mem_singleton] at hiG
      obtain ⟨x, hx, hxi⟩ := List.mem_map.mp hiK
      exact hKfresh x hx (by rw [hxi, hiG, hGid])
    have hG1 : gid ≠ e.id1 := by
      intro hcontra
      exact hinv.freshNew e.obj1 hobj1 s.idx le_rfl (by rw [ho1, ← hcontra])
    have hG2 : gid ≠ e.id2 := by
      intro hcontra
      exact hinv.freshNew e.obj2 hobj2 s.idx le_rfl (by rw [ho2, ← hcontra])
    have hGdone : gid ∉ s.done := by
      intro hcontra
      exact hinv.doneFresh gid hcontra s.idx le_rfl rfl
    have hnotdone' : ∀ a ∈ K ++ [G], a.id ∉ e.id1 :: e.id2 :: s.done := by
      intro a ha
      rcases List.mem_append.mp ha with haK | haG
      · obtain ⟨haP, ha1, ha2⟩ := (hmemK a).mp haK
        simp only [List.mem_cons, not_or]
        exact ⟨ha1, ha2, hinv.planeNotDone a haP⟩
      · have haG' : a = G := List.mem_singleton.mp haG
        subst haG'
        simp only [List.mem_cons, not_or, hGid]
        exact ⟨hG1, hG2, hGdone⟩
    have hfresh' : ∀ a ∈ K ++ [G], ∀ k, s.idx + 1 ≤ k → a.id ≠ fresh k := by
      intro a ha k hk
      rcases List.mem_append.mp ha with haK | haG
      · exact hinv.freshNew a ((hmemK a).mp haK).1 k (by omega)
      · have haG' : a = G := List.mem_singleton.mp haG
        subst haG'
        rw [hGid]
        intro hcontra
        have : s.idx = k := hf hcontra
        omega
    have hdoneFresh' : ∀ i ∈ e.id1 :: e.id2 :: s.done, ∀ k, s.idx + 1 ≤ k → i ≠ fresh k := by
      intro i hi k hk
      rcases List.mem_cons.mp hi with rfl | hi'
      · rw [← ho1]
        exact hinv.freshNew e.obj1 hobj1 k (by omega)
      rcases List.mem_cons.mp hi' with rfl | hi''
      · rw [← ho2]
        exact hinv.freshNew e.obj2 hobj2 k (by omega)
      · exact hinv.doneFresh i hi'' k (by omega)
    refine ⟨⟨hflags, hpairObjs, hpairLive, hcover, hnodup', hnotdone', hfresh', hdoneFresh'⟩,
      ?_, ?_, ?_⟩
    · have hP : s.plane.length = K.length + 2 := by omega
      simp only [List.length_append, List.length_map, List.length_cons, List.length_nil,
        hnewE, Nat.zero_add]
      rw [hlen, hP]
      have hq : (K.length + 1) * (K.length + 1) + K.length <
          (K.length + 2) * (K.length + 2) + 1 := by nlinarith
      omega
    · simp only [List.length_append, List.length_cons, List.length_nil]
      omega
    · intro h
      exact absurd h (by simp)

lemma gtLoop_run (fresh : ℕ → ℕ) (hf : Function.Injective fresh) :
    ∀ (fuel : ℕ) (s : GTState), GTInv fresh s →
      s.dists.length + s.plane.length * s.plane.length < fuel →
      ∃ s', gtLoop fresh fuel s = some s' ∧ s'.dists = [] ∧ GTInv fresh s' ∧
        s'.plane.length + s'.merges = s.plane.length + s.merges ∧
        (s'.plane = [] → s.plane = []) := by
  intro fuel
  induction fuel with
  | zero => intro s _ hm; omega
  | succ n ih =>
    intro s hinv hm
    by_cases hd : s.dists.isEmpty
    · have hde : s.dists = [] := by
        cases hdd : s.dists with
        | nil => rfl
        | cons a as => rw [hdd] at hd; simp at hd
      exact ⟨s, by rw [gtLoop, if_pos hd], hde, hinv, rfl, fun h => h⟩
    · have hne : s.dists ≠ [] := by
        intro h
        rw [h] at hd
        simp at hd
      obtain ⟨hinv', hlt, hcnt, hpl⟩ := gtBody_step fresh hf s hinv hne
      obtain ⟨s', hrun, hd', hinv'', hcnt', hpl'⟩ := ih (gtBody fresh s) hinv' (by omega)
      exact ⟨s', by rw [gtLoop, if_neg hd]; exact hrun, hd', hinv'',
        by omega, fun h => hpl (hpl' h)⟩

lemma plane_length_of_done {fresh : ℕ → ℕ} {s : GTState}
    (hinv : GTInv fresh s) (hd : s.dists = []) : s.plane.length ≤ 1 := by
  cases hp : s.plane with
  | nil => simp
  | cons x xs =>
    cases hxs : xs with
    | nil => simp
    | cons y ys =>
      exfalso
      have hx : x ∈ s.plane := by rw [hp]; exact List.mem_cons_self _ _
      have hy : y ∈ s.plane := by
        rw [hp, hxs]
        exact List.mem_cons_of_mem _ (List.mem_cons_self _ _)
      have hnd := hinv.planeNodup
      rw [hp, hxs] at hnd
      simp only [List.map_cons, List.nodup_cons, List.mem_cons] at hnd
      have hxy : x.id ≠ y.id := by
        intro hcontra
        exact hnd.1 (Or.inl hcontra)
      obtain ⟨e, he, _⟩ := hinv.cover x hx y hy hxy
      rw [hd] at he
      exact absurd he (List.not_mem_nil e)

/-- Claim C2: for every nonempty list of textboxes (with the pairwise
distinct object identities CPython guarantees for live objects),
`group_textboxes` terminates, performs exactly `n - 1` merges, and returns a
live set containing exactly one top-level node; when `n = 1` that node is the
original single box (layout.py 1014-1092). -/
theorem C2_merge_termination (boxes : List GObj) (hne : boxes ≠ [])
    (hids : (boxes.map GObj.id).Nodup) :
    ∃ plane merges, group_textboxes boxes = some (plane, merges) ∧
      plane.length = 1 ∧ merges + 1 = boxes.length ∧
      (∀ b, boxes = [b] → plane = [b]) := by
  set fresh : ℕ → ℕ := fun k => maxId boxes + 1 + k with hfresh
  have hf : Function.Injective fresh := by
    intro a b h
    simp only [hfresh] at h
    omega
  have hinv0 : GTInv fresh ⟨initDists boxes, boxes, [], 0, 0⟩ := by
    refine ⟨?_, ?_, ?_, ?_, hids, ?_, ?_, ?_⟩
    · exact fun e he => (initDists_basic e he).1
    · intro e he
      obtain ⟨_, h2, h3, _, _⟩ := initDists_basic e he
      exact ⟨h2, h3, initDists_ne hids e he⟩
    · intro e he
      obtain ⟨_, _, _, h4, h5⟩ := initDists_basic e he
      exact ⟨fun _ => h4, fun _ => h5⟩
    · exact initDists_cover
    · intro a _
      exact List.not_mem_nil _
    · intro a ha k _
      dsimp only at ha
      have := le_maxId ha
      simp only [hfresh]
      omega
    · intro i hi
      exact absurd hi (List.not_mem_nil _)
  obtain ⟨s', hrun, hd', hinv', hcnt, hpl⟩ := gtLoop_run fresh hf
    ((initDists boxes).length + boxes.length * boxes.length + 1)
    ⟨initDists boxes, boxes, [], 0, 0⟩ hinv0 (by simp only; omega)
  have hmain : group_textboxes boxes = some (s'.plane, s'.merges) := by
    unfold group_textboxes group_textboxes_with
    rw [← hfresh]
    simp only
    rw [hrun]
    rfl
  have hlen1 : s'.plane.length ≤ 1 := plane_length_of_done hinv' hd'
  have hplne : s'.plane ≠ [] := by
    intro h
    exact hne (hpl h)
  have hlen1' : s'.plane.length = 1 := by
    have := List.length_pos.mpr hplne
    omega
  have hcnt' : s'.plane.length + s'.merges = boxes.length := by
    simpa using hcnt
  refine ⟨s'.plane, s'.merges, hmain, hlen1', by omega, ?_⟩
  intro b hb
  rw [hb] at hmain
  have hcalc : group_textboxes [b] = some ([b], 0) := rfl
  rw [hcalc] at hmain
  have := Option.some.inj hmain
  exact (congrArg Prod.fst this).symm

/-- Claim C2 witness: a concrete two-box input, through the theorem. -/
theorem C2_merge_termination_witness :
    ∃ plane merges,
      group_textboxes [.tbox 1 ⟨0,0,1,1⟩ false, .tbox 2 ⟨2,0,3,1⟩ false] =
        some (plane, merges) ∧
      plane.length = 1 ∧
      merges + 1 = [GObj.tbox 1 ⟨0,0,1,1⟩ false, .tbox 2 ⟨2,0,3,1⟩ false].length ∧
      (∀ b, [GObj.tbox 1 ⟨0,0,1,1⟩ false, .tbox 2 ⟨2,0,3,1⟩ false] = [b] → plane = [b]) :=
  C2_merge_termination [.tbox 1 ⟨0,0,1,1⟩ false, .tbox 2 ⟨2,0,3,1⟩ false]
    (by simp) (by simp [GObj.id])

/-! ### Concrete boxes for the C1 evaluation -/

/-- Left box `(0,0,1,1)`. -/
def c1A : GObj := .tbox 10 ⟨0,0,1,1⟩ false

/-- Obstructing box `(4,0,5,6)`: it intersects the union rectangle
`(0,0,10,1)` of `c1A` and `c1B`, and is farther from each of them than they
are from each other. -/
def c1C : GObj := .tbox 20 ⟨4,0,5,6⟩ false

/-- Right box `(9,0,10,1)`. -/
def c1B : GObj := .tbox 30 ⟨9,0,10,1⟩ false

/-- Claim C1 (code bug): on input `[c1A, c1C, c1B]`, the first pop of the
queue is the pair `(c1A, c1B)` with distance 8 and the obstruction-deferred
flag UNSET, and `isany` reports that another live object (`c1C`) intersects
their union rectangle; the claim then requires the pair to be re-pushed with
the flag set and not merged on this pop.  The code instead merges `c1A` and
`c1B` immediately: the branch tests `if skip_isany and isany(...)`
(layout.py 1076) instead of `not skip_isany`, so after this pop the plane
holds the new group, both identities are consumed, one merge is recorded,
and no queue entry carries a set flag (the deferral branch is unreachable). -/
theorem C1_merge_despite_obstruction :
    popMin (initDists [c1A, c1C, c1B]) =
      some (⟨false, 8, 10, 30, c1A, c1B⟩,
        [⟨false, 23, 10, 20, c1A, c1C⟩, ⟨false, 29, 20, 30, c1C, c1B⟩]) ∧
    isany c1A c1B [c1A, c1C, c1B] = true ∧
    gtBody (fun k => 31 + k) ⟨initDists [c1A, c1C, c1B], [c1A, c1C, c1B], [], 0, 0⟩ =
      ⟨[⟨false, 23, 10, 20, c1A, c1C⟩, ⟨false, 29, 20, 30, c1C, c1B⟩,
        ⟨false, 44, 31, 20, mkGroup 31 c1A c1B, c1C⟩],
       [c1C, mkGroup 31 c1A c1B], [10, 30], 1, 1⟩ := by
  have h1 : boxdist c1A c1C = 23 := by
    norm_num [boxdist, c1A, c1C, GObj.bbox, BBox.width, BBox.height, min_def, max_def]
  have h2 : boxdist c1A c1B = 8 := by
    norm_num [boxdist, c1A, c1B, GObj.bbox, BBox.width, BBox.height, min_def, max_def]
  have h3 : boxdist c1C c1B = 29 := by
    norm_num [boxdist, c1C, c1B, GObj.bbox, BBox.width, BBox.height, min_def, max_def]
  have hGC : boxdist (mkGroup 31 c1A c1B) c1C = 44 := by
    norm_num [boxdist, mkGroup, expandBBox, sentinelBBox, INF, c1A, c1B, c1C, GObj.bbox,
      BBox.width, BBox.height, min_def, max_def]
  have hinit : initDists [c1A, c1C, c1B] =
      [⟨false, 23, 10, 20, c1A, c1C⟩, ⟨false, 8, 10, 30, c1A, c1B⟩,
       ⟨false, 29, 20, 30, c1C, c1B⟩] := by
    simp only [initDists, List.map_cons, List.map_nil, List.cons_append, List.nil_append,
      List.append_nil, h1, h2, h3]
    norm_num [c1A, c1C, c1B, GObj.id]
  have hpop : popMin (initDists [c1A, c1C, c1B]) =
      some (⟨false, 8, 10, 30, c1A, c1B⟩,
        [⟨false, 23, 10, 20, c1A, c1C⟩, ⟨false, 29, 20, 30, c1C, c1B⟩]) := by
    rw [hinit]
    norm_num [popMin, entryLt]
  refine ⟨hpop, by decide, ?_⟩
  unfold gtBody
  rw [hpop]
  dsimp only
  rw [if_neg (by simp)]
  simp only [Bool.false_and, Bool.false_eq_true, if_false]
  have hrem : planeRemove (planeRemove [c1A, c1C, c1B] c1A) c1B = [c1C] := by
    norm_num [planeRemove, List.filter, c1A, c1B, c1C, GObj.id]
  rw [hrem]
  simp only [List.map_cons, List.map_nil, List.cons_append, List.nil_append, hGC]
  norm_num [c1C, GObj.id]

/-! ### Identity relabeling (C7) -/

/-- Relabel every object identity in a node by `φ`; geometry and orientation
are untouched. -/
def mapG (φ : ℕ → ℕ) : GObj → GObj
  | .tbox i b v => .tbox (φ i) b v
  | .tgroup i b t cs => .tgroup (φ i) b t (cs.attach.map (fun c => mapG φ c.1))
termination_by o => sizeOf o
decreasing_by
  have := List.sizeOf_lt_of_mem c.2
  simp only [GObj.tgroup.sizeOf_spec]
  omega

lemma mapG_tgroup (φ : ℕ → ℕ) (i : ℕ) (b : BBox) (t : Bool) (cs : List GObj) :
    mapG φ (.tgroup i b t cs) = .tgroup (φ i) b t (cs.map (mapG φ)) := by
  rw [mapG]
  congr 1
  simp [List.attach_map_coe]

lemma mapG_id (φ : ℕ → ℕ) (o : GObj) : (mapG φ o).id = φ o.id := by
  cases o with
  | tbox i b v => rw [mapG]; rfl
  | tgroup i b t cs => rw [mapG_tgroup]; rfl

lemma mapG_bbox (φ : ℕ → ℕ) (o : GObj) : (mapG φ o).bbox = o.bbox := by
  cases o with
  | tbox i b v => rw [mapG]; rfl
  | tgroup i b t cs => rw [mapG_tgroup]; rfl

lemma mapG_vert (φ : ℕ → ℕ) (o : GObj) : (mapG φ o).verticalTyped = o.verticalTyped := by
  cases o with
  | tbox i b v => rw [mapG]; rfl
  | tgroup i b t cs => rw [mapG_tgroup]; rfl

lemma boxdist_mapG (φ : ℕ → ℕ) (o1 o2 : GObj) :
    boxdist (mapG φ o1) (mapG φ o2) = boxdist o1 o2 := by
  simp [boxdist, mapG_bbox]

lemma mkGroup_mapG (φ : ℕ → ℕ) (g : ℕ) (o1 o2 : GObj) :
    mapG φ (mkGroup g o1 o2) = mkGroup (φ g) (mapG φ o1) (mapG φ o2) := by
  unfold mkGroup
  rw [mapG_tgroup]
  simp [mapG_bbox, mapG_vert]

/-- Relabel a heap entry. -/
def mapE (φ : ℕ → ℕ) (e : Entry) : Entry :=
  ⟨e.skip, e.d, φ e.id1, φ e.id2, mapG φ e.obj1, mapG φ e.obj2⟩

/-- Relabel a loop state. -/
def mapGTState (φ : ℕ → ℕ) (s : GTState) : GTState :=
  ⟨s.dists.map (mapE φ), s.plane.map (mapG φ), s.done.map φ, s.idx, s.merges⟩

lemma entryLt_mapE {φ : ℕ → ℕ} (hφ : StrictMono φ) (a b : Entry) :
    entryLt (mapE φ a) (mapE φ b) = entryLt a b := by
  simp only [entryLt, mapE, hφ.lt_iff_lt, hφ.injective.eq_iff]

lemma popMin_mapE {φ : ℕ → ℕ} (hφ : StrictMono φ) (l : List Entry) :
    popMin (l.map (mapE φ)) =
      (popMin l).map (fun p => (mapE φ p.1, p.2.map (mapE φ))) := by
  induction l with
  | nil => rfl
  | cons x xs ih =>
    rw [List.map_cons, popMin, popMin, ih]
    cases hx : popMin xs with
    | none => rfl
    | some p =>
      obtain ⟨m, rest⟩ := p
      dsimp only [Option.map_some']
      rw [entryLt_mapE hφ]
      by_cases hlt : entryLt m x = true
      · rw [if_pos hlt, if_pos hlt]
        rfl
      · rw [if_neg hlt, if_neg hlt]
        rfl

lemma filter_map_comm {α β : Type} (f : α → β) (p : β → Bool) (l : List α) :
    (l.map f).filter p = (l.filter (fun x => p (f x))).map f := by
  induction l with
  | nil => rfl
  | cons x xs ih =>
    by_cases h : p (f x) <;> simp [List.filter_cons, h, ih]

lemma isEmpty_map {α β : Type} (f : α → β) (l : List α) : (l.map f).isEmpty = l.isEmpty := by
  cases l <;> rfl

lemma planeFind_mapG (φ : ℕ → ℕ) (plane : List GObj) (r : BBox) :
    planeFind GObj.bbox (plane.map (mapG φ)) r =
      (planeFind GObj.bbox plane r).map (mapG φ) := by
  unfold planeFind
  rw [filter_map_comm]
  have hfun : (fun x => rectIntersects r (GObj.bbox (mapG φ x))) =
      (fun x => rectIntersects r (GObj.bbox x)) := by
    funext x
    rw [mapG_bbox]
  rw [hfun]

lemma isany_mapG (φ : ℕ → ℕ) (hφinj : Function.Injective φ) (o1 o2 : GObj)
    (plane : List GObj) :
    isany (mapG φ o1) (mapG φ o2) (plane.map (mapG φ)) = isany o1 o2 plane := by
  unfold isany
  simp only [mapG_bbox, planeFind_mapG, filter_map_comm, isEmpty_map, mapG_id, hφinj.eq_iff]

lemma planeRemove_mapG (φ : ℕ → ℕ) (hφinj : Function.Injective φ) (plane : List GObj)
    (o : GObj) :
    planeRemove (plane.map (mapG φ)) (mapG φ o) = (planeRemove plane o).map (mapG φ) := by
  unfold planeRemove
  rw [filter_map_comm]
  have hfun : (fun x => !decide (GObj.id (mapG φ x) = GObj.id (mapG φ o))) =
      (fun x => !decide (GObj.id x = GObj.id o)) := by
    funext x
    simp [mapG_id, hφinj.eq_iff]
  rw [hfun]

lemma gtBody_mapState {φ : ℕ → ℕ} (hφ : StrictMono φ) (fresh : ℕ → ℕ) (s : GTState) :
    gtBody (fun k => φ (fresh k)) (mapGTState φ s) = mapGTState φ (gtBody fresh s) := by
  unfold gtBody
  rw [show (mapGTState φ s).dists = s.dists.map (mapE φ) from rfl]
  rw [popMin_mapE hφ]
  cases hpop : popMin s.dists with
  | none => rfl
  | some p =>
    obtain ⟨e, rest⟩ := p
    dsimp only [Option.map_some']
    have hmemdone : ((mapE φ e).id1 ∈ (mapGTState φ s).done ∨
        (mapE φ e).id2 ∈ (mapGTState φ s).done) ↔ (e.id1 ∈ s.done ∨ e.id2 ∈ s.done) := by
      simp only [mapE, mapGTState]
      rw [List.mem_map_of_injective hφ.injective, List.mem_map_of_injective hφ.injective]
    by_cases hdone : e.id1 ∈ s.done ∨ e.id2 ∈ s.done
    · rw [if_pos (hmemdone.mpr hdone), if_pos hdone]
      rfl
    · rw [if_neg (fun h => hdone (hmemdone.mp h)), if_neg hdone]
      have hskipeq : (mapE φ e).skip = e.skip := rfl
      have hisany : isany (mapE φ e).obj1 (mapE φ e).obj2 (mapGTState φ s).plane =
          isany e.obj1 e.obj2 s.plane := by
        rw [show (mapE φ e).obj1 = mapG φ e.obj1 from rfl,
          show (mapE φ e).obj2 = mapG φ e.obj2 from rfl,
          show (mapGTState φ s).plane = s.plane.map (mapG φ) from rfl]
        exact isany_mapG φ hφ.injective _ _ _
      rw [hskipeq, hisany]
      by_cases hskip : (e.skip && isany e.obj1 e.obj2 s.plane) = true
      · rw [if_pos hskip, if_pos hskip]
        simp [mapGTState, mapE]
      · rw [if_neg hskip, if_neg hskip]
        have hidx : (mapGTState φ s).idx = s.idx := rfl
        have hrem2 : planeRemove (planeRemove (mapGTState φ s).plane (mapE φ e).obj1)
            (mapE φ e).obj2 =
            (planeRemove (planeRemove s.plane e.obj1) e.obj2).map (mapG φ) := by
          rw [show (mapE φ e).obj1 = mapG φ e.obj1 from rfl,
            show (mapE φ e).obj2 = mapG φ e.obj2 from rfl,
            show (mapGTState φ s).plane = s.plane.map (mapG φ) from rfl]
          rw [planeRemove_mapG φ hφ.injective, planeRemove_mapG φ hφ.injective]
        rw [hidx, hrem2]
        have hGmap : mkGroup (φ (fresh s.idx)) (mapE φ e).obj1 (mapE φ e).obj2 =
            mapG φ (mkGroup (fresh s.idx) e.obj1 e.obj2) := by
          rw [mkGroup_mapG]
          rfl
        rw [hGmap]
        have hnew : (List.map (mapG φ) (planeRemove (planeRemove s.plane e.obj1) e.obj2)).map
            (fun other => Entry.mk false
              (boxdist (mapG φ (mkGroup (fresh s.idx) e.obj1 e.obj2)) other)
              (φ (fresh s.idx)) other.id (mapG φ (mkGroup (fresh s.idx) e.obj1 e.obj2)) other) =
            ((planeRemove (planeRemove s.plane e.obj1) e.obj2).map
              (fun other => Entry.mk false (boxdist (mkGroup (fresh s.idx) e.obj1 e.obj2) other)
                (fresh s.idx) other.id (mkGroup (fresh s.idx) e.obj1 e.obj2) other)).map
              (mapE φ) := by
          rw [List.map_map, List.map_map]
          apply List.map_congr_left
          intro other _
          simp only [Function.comp_apply, mapE, boxdist_mapG, mapG_id]
        rw [hnew]
        simp [mapGTState, List.map_append]
        exact ⟨rfl, rfl⟩

lemma gtLoop_mapState {φ : ℕ → ℕ} (hφ : StrictMono φ) (fresh : ℕ → ℕ) :
    ∀ (fuel : ℕ) (s : GTState),
      gtLoop (fun k => φ (fresh k)) fuel (mapGTState φ s) =
        (gtLoop fresh fuel s).map (mapGTState φ) := by
  intro fuel
  induction fuel with
  | zero =>
    intro s
    rw [gtLoop, gtLoop]
    rw [show (mapGTState φ s).dists = s.dists.map (mapE φ) from rfl, isEmpty_map]
    by_cases hd : s.dists.isEmpty = true
    · rw [if_pos hd, if_pos hd]
      rfl
    · rw [if_neg hd, if_neg hd]
      rfl
  | succ n ih =>
    intro s
    rw [gtLoop, gtLoop]
    rw [show (mapGTState φ s).dists = s.dists.map (mapE φ) from rfl, isEmpty_map]
    by_cases hd : s.dists.isEmpty = true
    · rw [if_pos hd, if_pos hd]
      rfl
    · rw [if_neg hd, if_neg hd]
      rw [gtBody_mapState hφ]
      exact ih (gtBody fresh s)

lemma initDists_mapG (φ : ℕ → ℕ) (boxes : List GObj) :
    initDists (boxes.map (mapG φ)) = (initDists boxes).map (mapE φ) := by
  induction boxes with
  | nil => rfl
  | cons x xs ih =>
    rw [List.map_cons, initDists, initDists, List.map_append, ih]
    congr 1
    rw [List.map_map, List.map_map]
    apply List.map_congr_left
    intro b2 _
    simp [mapE, boxdist_mapG, mapG_id]

/-- Claim C7: determinism and identity-stability of the clusterer.  The
embedding is a pure function, so two runs on identical input order and
configuration yield identical groupings by construction; and the priority
queue's identity components act only as a stable order-based tie-break:
relabeling every object identity — the input boxes' and the fresh-group
supply's — by ANY strictly monotone map `φ` yields exactly the relabeled run
of the original, so no result depends on the identity values beyond their
relative order (layout.py 1060-1092). -/
theorem C7_identity_relabeling (φ : ℕ → ℕ) (hφ : StrictMono φ) (fresh : ℕ → ℕ)
    (boxes : List GObj) :
    group_textboxes_with (fun k => φ (fresh k)) (boxes.map (mapG φ)) =
      (group_textboxes_with fresh boxes).map (fun r => (r.1.map (mapG φ), r.2)) := by
  unfold group_textboxes_with
  rw [initDists_mapG]
  simp only [List.length_map]
  rw [show (⟨(initDists boxes).map (mapE φ), boxes.map (mapG φ), [], 0, 0⟩ : GTState) =
    mapGTState φ ⟨initDists boxes, boxes, [], 0, 0⟩ from rfl]
  rw [gtLoop_mapState hφ]
  cases gtLoop fresh ((initDists boxes).length + boxes.length * boxes.length + 1)
      ⟨initDists boxes, boxes, [], 0, 0⟩ with
  | none => rfl
  | some s => rfl

/-- Claim C7 witness: a concrete relabeling by successor, through the
theorem. -/
theorem C7_identity_relabeling_witness :
    group_textboxes_with (fun k => Nat.succ (5 + k))
        ([GObj.tbox 0 ⟨0,0,1,1⟩ false].map (mapG Nat.succ)) =
      (group_textboxes_with (fun k => 5 + k) [GObj.tbox 0 ⟨0,0,1,1⟩ false]).map
        (fun r => (r.1.map (mapG Nat.succ), r.2)) :=
  C7_identity_relabeling Nat.succ (fun _ _ h => Nat.succ_lt_succ h) (fun k => 5 + k)
    [GObj.tbox 0 ⟨0,0,1,1⟩ false]

end Layout
